import Mathlib

/-!
Verification development for the filmoscopie repository
(src/filmoscopie/wikipedia/page.py and src/filmoscopie/wikipedia/__init__.py).

Strings are modelled as lists of characters (`Str`).  Each Python regular
expression used by the source is embedded as a dedicated scanning function
whose operational behaviour follows the standard leftmost, backtracking
semantics of the `re` module for that particular pattern; next to every such
function a comment quotes the original pattern and explains the reading.
Python `re.IGNORECASE` is modelled by folding both pattern and text through
`lowerChar`, which lowercases ASCII letters and the accented letters that
occur in the patterns of the source.  Recursive scanners that are not
structurally recursive use an explicit fuel argument; fuel is always
instantiated with a bound that the scanner can never exhaust, so the fuel is
an encoding artifact, not a semantic one.
-/

abbrev Str := List Char

/-- Newline character. -/
def nlChar : Char := Char.ofNat 10

/-- Tab character. -/
def tabChar : Char := Char.ofNat 9

/-- Carriage-return character. -/
def crChar : Char := Char.ofNat 13

/-- Vertical-tab character. -/
def vtChar : Char := Char.ofNat 11

/-- Form-feed character. -/
def ffChar : Char := Char.ofNat 12

/-- Opening curly brace. -/
def lbrace : Char := Char.ofNat 123

/-- Closing curly brace. -/
def rbrace : Char := Char.ofNat 125

/-- Single-quote (apostrophe) character. -/
def squote : Char := Char.ofNat 39

/-- Whitespace as matched by the regex class backslash-s and by Python
str.strip on the ASCII range (space, tab, newline, carriage return,
vertical tab, form feed). -/
def isWs (c : Char) : Bool :=
  c = ' ' || c = tabChar || c = nlChar || c = crChar || c = vtChar || c = ffChar

/-- ASCII digit test (regex class backslash-d on ASCII input). -/
def isDigitCh (c : Char) : Bool :=
  '0' ≤ c && c ≤ '9'

/-- ASCII letter test, both cases (regex class [a-z] under IGNORECASE). -/
def isAsciiLetter (c : Char) : Bool :=
  ('a' ≤ c && c ≤ 'z') || ('A' ≤ c && c ≤ 'Z')

/-- Case folding used to model `re.IGNORECASE`: ASCII uppercase letters are
lowercased, and the accented uppercase letters that can occur against the
accented letters of the source patterns (É, à-range not needed) are folded;
all other characters are fixed.  The source patterns contain, as cased
letters, only ASCII letters and the letter é. -/
def lowerChar (c : Char) : Char :=
  if c = 'É' then 'é' else c.toLower

/-- Digit value of an ASCII digit character. -/
def digitVal (c : Char) : Nat :=
  c.toNat - 48

/-- Numeric value of a list of ASCII digit characters (Python `int` on a
string of digits). -/
def natOfDigits (ds : Str) : Nat :=
  ds.foldl (fun acc c => acc * 10 + digitVal c) 0

/-- Case-insensitive prefix test: does `s` start with pattern `pat`?
`pat` is given already folded (lowercase). -/
def startsWithFold (pat s : Str) : Bool :=
  match pat, s with
  | [], _ => true
  | _ :: _, [] => false
  | p :: ps, c :: cs => p = lowerChar c && startsWithFold ps cs

/-- First case-insensitive occurrence of `pat` in `s`: returns the pair of
the part before the match and the suffix starting at the match, scanning
left to right (the leftmost-match rule of `re.search`). -/
def splitAtFold (pat : Str) (s : Str) : Option (Str × Str) :=
  go [] s
where
  go (acc : Str) : Str → Option (Str × Str)
    | [] => if startsWithFold pat [] then some (acc.reverse, []) else none
    | c :: cs =>
      if startsWithFold pat (c :: cs) then some (acc.reverse, c :: cs)
      else go (c :: acc) cs

/-- Case-insensitive substring test. -/
def containsFold (pat s : Str) : Bool :=
  (splitAtFold pat s).isSome

/-- Leftmost search: try the position matcher `f` at every position of `s`
from the left, returning the first success (the scanning loop of
`re.search`). -/
def scanFirst (f : Str → Option α) : Str → Option α
  | [] => f []
  | c :: cs =>
    match f (c :: cs) with
    | some a => some a
    | none => scanFirst f cs

/-- Case-insensitive prefix strip: if `s` starts (case-insensitively) with
`pat`, return the rest. -/
def stripPrefixFold (pat : Str) (s : Str) : Option Str :=
  match pat, s with
  | [], _ => some s
  | _ :: _, [] => none
  | p :: ps, c :: cs => if p = lowerChar c then stripPrefixFold ps cs else none

/-- Length of the maximal run of character `c` at the head of `s`. -/
def runLen (c : Char) : Str → Nat
  | [] => 0
  | x :: xs => if x = c then runLen c xs + 1 else 0

/-- Case-sensitive prefix test. -/
def startsWithStr (pat s : Str) : Bool :=
  match pat, s with
  | [], _ => true
  | _ :: _, [] => false
  | p :: ps, c :: cs => p = c && startsWithStr ps cs

/-- Case-sensitive substring test (Python `str.find(pat) != -1`). -/
def containsStr (pat : Str) : Str → Bool
  | [] => startsWithStr pat []
  | c :: cs => startsWithStr pat (c :: cs) || containsStr pat cs

/-!
## Page classifier (src/filmoscopie/wikipedia/page.py, lines 6-39)
-/

/-- `is_draft` (page.py line 6-7):
`return text.find("{{ébauche|film") != -1` — a case-sensitive substring
test. -/
def is_draft (text : Str) : Bool :=
  containsStr ("\x7b\x7bébauche|film".toList) text

/-- The six sub-theme qualifiers of `is_sub_theme` (page.py lines 11-18). -/
def subThemes : List Str :=
  ["projecteur".toList, "festival".toList, "technologie".toList,
   "studio".toList, "caméra".toList, "série de films".toList]

/-- `is_sub_theme` (page.py lines 10-21): for each theme the source runs
`text.find(f"{{Infobox Cinéma ({theme})")`.  Inside the f-string the doubled
brace renders as a single brace, so the searched substring starts with one
opening brace only; the search is case-sensitive. -/
def is_sub_theme (text : Str) : Bool :=
  subThemes.any fun theme =>
    containsStr ("\x7bInfobox Cinéma (".toList ++ theme ++ [')']) text

/-- `is_film_article` (page.py lines 24-39).
`cine = re.search(r"\{\{Infobox Cinéma.*", text, re.IGNORECASE)`: the match,
when it exists, runs from the first case-insensitive occurrence of
"{{Infobox Cinéma" to the end of that line (dot does not cross newlines).
If the matched text does not contain "(personnalité)" (a case-sensitive
`str.find`), the article is a film.  Otherwise the source falls through to
`any(re.search(p, text, re.IGNORECASE) for p in [r"\{\{Infobox Film",
r"\{\{Infobox film"])`, i.e. one case-insensitive substring test. -/
def is_film_article (text : Str) : Bool :=
  match splitAtFold ("\x7b\x7binfobox cinéma".toList) text with
  | some (_, suffix) =>
    let cine0 := suffix.takeWhile (fun c => c ≠ nlChar)
    if !(containsStr ("(personnalité)".toList) cine0) then true
    else containsFold ("\x7b\x7binfobox film".toList) text
  | none => containsFold ("\x7b\x7binfobox film".toList) text

/-!
## Generic substitution engine

`re.sub` scans left to right; at every position it tries the pattern, and on
a match emits the replacement and resumes after the match; on a miss it
emits the character and advances one position.  All patterns of the source
require at least one character, so a match always consumes input; the fuel
(initialised with the length of the text) therefore never runs out.
-/

/-- One `re.sub` pass: `f` is the position matcher, returning on success the
replacement text and the rest of the input after the match. -/
def subGo (f : Str → Option (Str × Str)) : Nat → Str → Str
  | _, [] => []
  | 0, s => s
  | fuel + 1, c :: cs =>
    match f (c :: cs) with
    | some (rep, rest) => rep ++ subGo f fuel rest
    | none => c :: subGo f fuel cs

/-- `re.sub(pattern, repl, s)` for a position matcher `f`. -/
def subAll (f : Str → Option (Str × Str)) (s : Str) : Str :=
  subGo f s.length s

/-- Python `str.strip()`: drop whitespace from both ends. -/
def stripWs (s : Str) : Str :=
  ((s.dropWhile isWs).reverse.dropWhile isWs).reverse

/-!
## Position matchers for the cleaning patterns of page.py
-/

/-- Pattern (with groups) of clean_value line 295 and clean_synopsis line
247: double-bracket wiki links, regex
backslash-[ backslash-[ (?:[Caret-pipe-bracket]*pipe)? ([Caret-bracket]+)
backslash-] backslash-] replaced by group 1.
Reading: after the two opening brackets the optional part consumes up to the
first pipe or closing bracket; when it stops at a pipe the pipe is consumed
(present branch), and on failure of the rest the absent branch is retried;
the group is then a nonempty run of characters other than a closing
bracket, followed by two closing brackets. -/
def matchWikiLink (s : Str) : Option (Str × Str) :=
  match s with
  | '[' :: '[' :: rest =>
    let run1 := rest.takeWhile fun c => c ≠ '|' && c ≠ ']'
    let after := rest.drop run1.length
    let present : Option (Str × Str) :=
      match after with
      | '|' :: tl => matchGroup tl
      | _ => none
    match present with
    | some r => some r
    | none => matchGroup rest
  | _ => none
where
  /-- ([Caret-bracket]+) backslash-] backslash-] at this position. -/
  matchGroup (t : Str) : Option (Str × Str) :=
    let grp := t.takeWhile fun c => c ≠ ']'
    if grp.isEmpty then none
    else
      match t.drop grp.length with
      | ']' :: ']' :: tl => some (grp, tl)
      | _ => none

/-- clean_value line 296: the same shape with braces and a pipe,
regex backslash-lbrace backslash-lbrace (?:[Caret-pipe-rbrace]*pipe)?
([Caret-rbrace]+) backslash-rbrace backslash-rbrace, replaced by group 1. -/
def matchBraceLink (s : Str) : Option (Str × Str) :=
  match s with
  | a :: b :: rest =>
    if a = lbrace && b = lbrace then
      let run1 := rest.takeWhile fun c => c ≠ '|' && c ≠ rbrace
      let after := rest.drop run1.length
      let present : Option (Str × Str) :=
        match after with
        | '|' :: tl => matchGroup tl
        | _ => none
      match present with
      | some r => some r
      | none => matchGroup rest
    else none
  | _ => none
where
  matchGroup (t : Str) : Option (Str × Str) :=
    let grp := t.takeWhile fun c => c ≠ rbrace
    if grp.isEmpty then none
    else
      match t.drop grp.length with
      | c :: d :: tl => if c = rbrace && d = rbrace then some (grp, tl) else none
      | _ => none

/-- HTML tags, clean_value line 299 and clean_synopsis line 254:
regex < [Caret-gt]+ > removed. -/
def matchHtmlTag (s : Str) : Option (Str × Str) :=
  match s with
  | '<' :: rest =>
    let run := rest.takeWhile fun c => c ≠ '>'
    if run.isEmpty then none
    else
      match rest.drop run.length with
      | '>' :: tl => some ([], tl)
      | _ => none
  | _ => none

/-- Find the first occurrence of case-sensitive `pat`; returns the suffix
after that occurrence. -/
def dropThroughStr (pat : Str) : Str → Option Str
  | [] => if startsWithStr pat [] then some ((([] : Str)).drop pat.length) else none
  | c :: cs =>
    if startsWithStr pat (c :: cs) then some ((c :: cs).drop pat.length)
    else dropThroughStr pat cs

/-- Paired ref tags, clean_value line 302 and clean_synopsis line 258: regex
<ref [Caret-gt]* > .*? </ref> with DOTALL, removed.  The lazy dot-star stops
at the first occurrence of the closing tag. -/
def matchRefPair (s : Str) : Option (Str × Str) :=
  match stripPrefixCS ("<ref".toList) s with
  | some rest =>
    let run := rest.takeWhile fun c => c ≠ '>'
    match rest.drop run.length with
    | '>' :: tl =>
      match dropThroughStr ("</ref>".toList) tl with
      | some rest2 => some ([], rest2)
      | none => none
    | _ => none
  | none => none
where
  /-- Case-sensitive prefix strip. -/
  stripPrefixCS (pat t : Str) : Option Str :=
    match pat, t with
    | [], _ => some t
    | _ :: _, [] => none
    | p :: ps, c :: cs => if p = c then stripPrefixCS ps cs else none

/-- Lone ref tags, clean_value line 303 and clean_synopsis line 259: regex
<ref [Caret-gt]* /? >, removed.  The char class absorbs any slash, so the
matcher is: "<ref", a run of non-gt characters, then ">". -/
def matchRefSingle (s : Str) : Option (Str × Str) :=
  match s with
  | '<' :: 'r' :: 'e' :: 'f' :: rest =>
    let run := rest.takeWhile fun c => c ≠ '>'
    match rest.drop run.length with
    | '>' :: tl => some ([], tl)
    | _ => none
  | _ => none

/-- Bold and italic markers, clean_value line 306 and clean_synopsis line
267: a run of two or more single-quote characters, removed (regex: quote
repeated at least twice, greedy). -/
def matchQuoteRun (s : Str) : Option (Str × Str) :=
  let k := runLen squote s
  if k ≥ 2 then some ([], s.drop k) else none

/-- Whitespace collapse, clean_value line 309: regex backslash-s + replaced
by one space. -/
def matchWsRun (s : Str) : Option (Str × Str) :=
  let k := (s.takeWhile isWs).length
  if k ≥ 1 then some ([' '], s.drop k) else none

/-- `clean_value` (page.py lines 288-311), pass for pass in source order. -/
def clean_value (value : Str) : Str :=
  let v := stripWs value
  let v := subAll matchWikiLink v
  let v := subAll matchBraceLink v
  let v := subAll matchHtmlTag v
  let v := subAll matchRefPair v
  let v := subAll matchRefSingle v
  let v := subAll matchQuoteRun v
  let v := subAll matchWsRun v
  stripWs v

/-!
## parse_list (page.py lines 314-328)
-/

/-- Separator matcher for `re.split(r"\n\*|\n-|<br\s*/?>|,", text)`
(page.py line 321).  At a position, the alternatives are tried in pattern
order; `<br` followed by optional whitespace, an optional slash and `>` is
the break-tag alternative.  Returns the rest after the separator. -/
def matchListSep (s : Str) : Option Str :=
  match s with
  | a :: '*' :: tl => if a = nlChar then some tl else matchBr s
  | a :: '-' :: tl => if a = nlChar then some tl else matchBr s
  | ',' :: tl => some tl
  | _ => matchBr s
where
  /-- < b r backslash-s * /? > -/
  matchBr (t : Str) : Option Str :=
    match t with
    | '<' :: 'b' :: 'r' :: rest =>
      let ws := rest.takeWhile isWs
      match rest.drop ws.length with
      | '>' :: tl => some tl
      | '/' :: '>' :: tl => some tl
      | _ => none
    | ',' :: tl => some tl
    | _ => none

/-- The splitting loop of `re.split`: scan left to right, cutting at each
separator match. -/
def splitSepsGo : Nat → Str → Str → List Str
  | _, acc, [] => [acc.reverse]
  | 0, acc, s => [acc.reverse ++ s]
  | fuel + 1, acc, c :: cs =>
    match matchListSep (c :: cs) with
    | some rest => acc.reverse :: splitSepsGo fuel [] rest
    | none => splitSepsGo fuel (c :: acc) cs

/-- `re.split(r"\n\*|\n-|<br\s*/?>|,", text)`. -/
def splitSeps (s : Str) : List Str :=
  splitSepsGo s.length [] s

/-- Python `str.lstrip("- ")`: drop leading dashes and spaces. -/
def lstripDashSpace (s : Str) : Str :=
  s.dropWhile fun c => c = '-' || c = ' '

/-- `parse_list` (page.py lines 314-328): split, keep the raw pieces that
are nonempty and longer than one character, and clean each kept piece with
`clean_value(...).lstrip("- ").strip()`.  The `None` guard of the source
cannot arise here (all call sites pass a matched group).  There is no cap
on the number of entries. -/
def parse_list (text : Str) : List Str :=
  ((splitSeps text).filter fun item => item.length > 1).map fun item =>
    stripWs (lstripDashSpace (clean_value item))

/-!
## clean_synopsis (page.py lines 233-285)
-/

/-- Subsection headings, clean_synopsis line 244: regex
= {2,} .*? = {2,} removed.  Reading: the first run of equals signs is
greedy; the lazy dot-star (newline-free) then runs to the next run of at
least two equals signs, which is taken greedily; on failure the first run
backtracks down to length two. -/
def matchEqHeading (s : Str) : Option (Str × Str) :=
  let k := runLen '=' s
  if k < 2 then none else tryK k s
where
  /-- First index of a run of at least two equals signs, scanning only
  characters the newline-free lazy dot-star can consume; returns the index
  and the greedy run length there. -/
  findEqRun : Str → Option (Nat × Nat)
    | [] => none
    | '=' :: '=' :: rest => some (0, 2 + runLen '=' rest)
    | c :: cs =>
      if c = nlChar then none
      else (findEqRun cs).map fun p => (p.1 + 1, p.2)
  /-- Try first-run lengths from `k` down to 2. -/
  tryK : Nat → Str → Option (Str × Str)
    | 0, _ => none
    | 1, _ => none
    | kk + 2, s =>
      match findEqRun (s.drop (kk + 2)) with
      | some (i, m) => some ([], s.drop (kk + 2 + i + m))
      | none => tryK (kk + 1) s

/-- External links with display text, clean_synopsis line 250: regex
backslash-[ https?:// [Caret-ws-bracket]+ backslash-s+ ([Caret-bracket]+)
backslash-], replaced by group 1. -/
def matchExtLinkText (s : Str) : Option (Str × Str) :=
  match s with
  | '[' :: rest =>
    match stripHttp rest with
    | some r1 =>
      let url := r1.takeWhile fun c => !(isWs c) && c ≠ ']'
      if url.isEmpty then none
      else
        let r2 := r1.drop url.length
        let ws := r2.takeWhile isWs
        if ws.isEmpty then none
        else
          let r3 := r2.drop ws.length
          let grp := r3.takeWhile fun c => c ≠ ']'
          if grp.isEmpty then none
          else
            match r3.drop grp.length with
            | ']' :: tl => some (grp, tl)
            | _ => none
    | none => none
  | _ => none
where
  /-- https?:// -/
  stripHttp (t : Str) : Option Str :=
    match t with
    | 'h' :: 't' :: 't' :: 'p' :: 's' :: ':' :: '/' :: '/' :: tl => some tl
    | 'h' :: 't' :: 't' :: 'p' :: ':' :: '/' :: '/' :: tl => some tl
    | _ => none

/-- Bare external links, clean_synopsis line 251: regex
backslash-[ https?:// [Caret-ws-bracket]+ backslash-], removed. -/
def matchExtLinkBare (s : Str) : Option (Str × Str) :=
  match s with
  | '[' :: 'h' :: 't' :: 't' :: 'p' :: rest =>
    let rest2 : Option Str :=
      match rest with
      | 's' :: ':' :: '/' :: '/' :: tl => some tl
      | ':' :: '/' :: '/' :: tl => some tl
      | _ => none
    match rest2 with
    | some r1 =>
      let url := r1.takeWhile fun c => !(isWs c) && c ≠ ']'
      if url.isEmpty then none
      else
        match r1.drop url.length with
        | ']' :: tl => some ([], tl)
        | _ => none
    | none => none
  | _ => none

/-- Reference templates, clean_synopsis line 257: regex
backslash-lbrace backslash-lbrace [Rr] éférence [Caret-rbrace]*
backslash-rbrace backslash-rbrace, removed. -/
def matchRefTemplate (s : Str) : Option (Str × Str) :=
  match s with
  | a :: b :: c :: rest =>
    if a = lbrace && b = lbrace && (c = 'R' || c = 'r') then
      match stripEf rest with
      | some r1 =>
        let run := r1.takeWhile fun x => x ≠ rbrace
        match r1.drop run.length with
        | d :: e :: tl => if d = rbrace && e = rbrace then some ([], tl) else none
        | _ => none
      | none => none
    else none
  | _ => none
where
  /-- The literal tail "éférence". -/
  stripEf (t : Str) : Option Str :=
    match t with
    | 'é' :: 'f' :: 'é' :: 'r' :: 'e' :: 'n' :: 'c' :: 'e' :: tl => some tl
    | _ => none

/-- Generic templates, clean_synopsis line 264: regex
backslash-lbrace backslash-lbrace [Caret-rbrace]+ backslash-rbrace
backslash-rbrace, removed. -/
def matchTemplate (s : Str) : Option (Str × Str) :=
  match s with
  | a :: b :: rest =>
    if a = lbrace && b = lbrace then
      let run := rest.takeWhile fun x => x ≠ rbrace
      if run.isEmpty then none
      else
        match rest.drop run.length with
        | d :: e :: tl => if d = rbrace && e = rbrace then some ([], tl) else none
        | _ => none
    else none
  | _ => none

/-- Newline collapse, clean_synopsis line 270: regex backslash-n +
replaced by one newline. -/
def matchNlRun (s : Str) : Option (Str × Str) :=
  let k := runLen nlChar s
  if k ≥ 1 then some ([nlChar], s.drop k) else none

/-- Space collapse, clean_synopsis line 271: one or more space characters
(only spaces, not general whitespace) replaced by one space. -/
def matchSpaceRun (s : Str) : Option (Str × Str) :=
  let k := runLen ' ' s
  if k ≥ 1 then some ([' '], s.drop k) else none

/-- The cleaning passes of `clean_synopsis` (page.py lines 244-274), in
source order, up to but excluding the final truncation. -/
def cleanSynopsisPre (synopsis : Str) : Str :=
  let v := subAll matchEqHeading synopsis
  let v := subAll matchWikiLink v
  let v := subAll matchExtLinkText v
  let v := subAll matchExtLinkBare v
  let v := subAll matchHtmlTag v
  let v := subAll matchRefTemplate v
  let v := subAll matchRefPair v
  let v := subAll matchRefSingle v
  let v := subAll matchTemplate v
  let v := subAll matchQuoteRun v
  let v := subAll matchNlRun v
  let v := subAll matchSpaceRun v
  stripWs v

/-- Python `str.rfind(".", 0, 2000)`: highest index of a dot among the
first 2000 characters, or -1 (page.py line 279). -/
def rfindDot2000 (s : Str) : Int :=
  match ((s.take 2000).reverse.findIdx? fun c => c = '.') with
  | some i => Int.ofNat ((s.take 2000).length - 1 - i)
  | none => -1

/-- The truncation step of `clean_synopsis` (page.py lines 277-283): a
synopsis longer than 2000 characters is cut at the last sentence dot before
position 2000 if that dot lies past position 1000, and otherwise hard-cut
at 2000 characters with a three-character ellipsis appended. -/
def truncateSynopsis (s : Str) : Str :=
  if s.length > 2000 then
    let cutoff := rfindDot2000 s
    if cutoff > 1000 then s.take (cutoff.toNat + 1)
    else s.take 2000 ++ "...".toList
  else s

/-- `clean_synopsis` (page.py lines 233-285): the cleaning passes followed
by the truncation step. -/
def clean_synopsis (synopsis : Str) : Str :=
  truncateSynopsis (cleanSynopsisPre synopsis)

/-!
## extract_synopsis (page.py lines 193-230)
-/

/-- First index `i` of `s`, scanning left to right, at which one of the two
section terminators starts: newline + "==" — the alternative newline +
rbrace rbrace does not occur here; this finder is for the synopsis
patterns whose group is ended by `(?:\n==|\Z)`.  Returns none when no
terminator occurs (the `\Z` branch). -/
def findNlEqEq : Str → Option Nat
  | [] => none
  | a :: b :: c :: rest =>
    if a = nlChar && b = '=' && c = '=' then some 0
    else (findNlEqEq (b :: c :: rest)).map (· + 1)
  | _ :: tl => (findNlEqEq tl).map (· + 1)

/-- Position matcher for one synopsis heading pattern (page.py lines
211-215), regex
== backslash-s* HEADING backslash-s* == backslash-s* backslash-n
(.*?) (?: backslash-n == | backslash-Z )
with IGNORECASE and DOTALL.  Reading: two equals signs, optional
whitespace, the heading word (case-insensitive), optional whitespace, two
equals signs; then the greedy whitespace-star followed by a literal
newline consumes up to the last newline of the whitespace run; the lazy
group then runs to the first following newline + "==", or to the end of
input. -/
def matchHeadingSection (heading : Str) (s : Str) : Option Str :=
  match s with
  | '=' :: '=' :: rest =>
    let r1 := rest.dropWhile isWs
    match stripPrefixFold heading r1 with
    | some r2 =>
      let r3 := r2.dropWhile isWs
      match r3 with
      | '=' :: '=' :: r4 =>
        let ws := r4.takeWhile isWs
        match lastNl ws with
        | some j =>
          let body := r4.drop (j + 1)
          match findNlEqEq body with
          | some i => some (body.take i)
          | none => some body
        | none => none
      | _ => none
    | none => none
  | _ => none
where
  /-- Index of the last newline in the whitespace run (the backtracking of
  the greedy backslash-s* before the literal newline). -/
  lastNl (ws : Str) : Option Nat :=
    match ws.reverse.findIdx? fun c => c = nlChar with
    | some i => some (ws.length - 1 - i)
    | none => none

/-- The five synopsis headings, in the priority order of the source
(page.py lines 210-216), already case-folded. -/
def synHeadings : List Str :=
  ["synopsis".toList, "résumé".toList, "histoire".toList,
   "intrigue".toList, "scénario".toList]

/-- The raw section text for one heading: leftmost match over the full
markup. -/
def sectionSearch (heading text : Str) : Option Str :=
  scanFirst (matchHeadingSection heading) text

/-- `extract_synopsis` (page.py lines 193-230): try the five headings in
order; for the first pattern that matches, clean the captured section; if
the cleaned text has at least 50 characters return it, otherwise go on to
the next heading; return none when no heading qualifies. -/
def extract_synopsis (text : Str) : Option Str :=
  go synHeadings
where
  go : List Str → Option Str
    | [] => none
    | h :: hs =>
      match sectionSearch h text with
      | some raw =>
        let cleaned := clean_synopsis raw
        if cleaned.length ≥ 50 then some cleaned else go hs
      | none => go hs

/-!
## Infobox and field extraction (page.py lines 54-190)
-/

/-- Title cleaning (page.py line 73): `re.sub(r"\((télé)?film.*\)", "",
title)` — each match runs from an opening parenthesis followed by an
optional "télé" and "film" to the last closing parenthesis on the same
line (greedy newline-free dot-star backtracking to a closing
parenthesis); all matches are removed. -/
def matchFilmParen (s : Str) : Option (Str × Str) :=
  match s with
  | '(' :: rest =>
    let restF : Option Str :=
      match rest with
      | 't' :: 'é' :: 'l' :: 'é' :: tl => stripFilm tl
      | _ => stripFilm rest
    match restF with
    | some r1 =>
      let line := r1.takeWhile fun c => c ≠ nlChar
      match line.reverse.findIdx? fun c => c = ')' with
      | some j => some ([], r1.drop (line.length - j))
      | none => none
    | none => none
  | _ => none
where
  stripFilm (t : Str) : Option Str :=
    match t with
    | 'f' :: 'i' :: 'l' :: 'm' :: tl => some tl
    | _ => none

/-- The title field of the record (page.py line 73): strip the
film-disambiguation suffixes, then Python `.strip()`. -/
def cleanTitle (title : Str) : Str :=
  stripWs (subAll matchFilmParen title)

/-- Position matcher for the infobox opener (page.py lines 89-93), regex
backslash-lbrace backslash-lbrace Infobox [Caret-rbrace]*?
(Cinéma|Film|film) backslash-s* backslash-pipe? (.*?) backslash-n
backslash-rbrace backslash-rbrace
with DOTALL and IGNORECASE.  Reading: after "{{Infobox" the lazy class
run stops at the first case-insensitive occurrence of "cinéma" or "film"
with no closing brace in between; then the greedy whitespace-star and the
optional pipe backtrack from longest to shortest until the lazy group 2
can end at the first following newline + rbrace rbrace. -/
def matchInfobox (s : Str) : Option Str :=
  match stripPrefixFold ("\x7b\x7binfobox".toList) s with
  | some rest =>
    match findWord rest with
    | some r1 => wsPipe (r1.takeWhile isWs).length r1
    | none => none
  | none => none
where
  /-- Lazy scan for the first case-insensitive "cinéma" or "film", not
  crossing a closing brace. -/
  findWord : Str → Option Str
    | [] => none
    | c :: cs =>
      match stripPrefixFold ("cinéma".toList) (c :: cs) with
      | some tl => some tl
      | none =>
        match stripPrefixFold ("film".toList) (c :: cs) with
        | some tl => some tl
        | none => if c = rbrace then none else findWord cs
  /-- Terminator: first newline + rbrace + rbrace; group 2 is the part
  before it. -/
  findTerm : Str → Option Nat
    | [] => none
    | a :: b :: c :: rest =>
      if a = nlChar && b = rbrace && c = rbrace then some 0
      else (findTerm (b :: c :: rest)).map (· + 1)
    | _ :: tl => (findTerm tl).map (· + 1)
  /-- Greedy backslash-s* with backtracking (n whitespace characters
  consumed, n from maximal down to 0), then an optional pipe, then the
  lazy group up to the terminator. -/
  wsPipe : Nat → Str → Option Str
    | n, r1 =>
      let cur := r1.drop n
      let cur2 := match cur with
        | '|' :: tl => tl
        | _ => cur
      match findTerm cur2 with
      | some i => some (cur2.take i)
      | none =>
        match n with
        | 0 => none
        | m + 1 => wsPipe m r1

/-- The infobox search (page.py lines 89-98): leftmost match over the full
markup; returns group 2, the infobox body. -/
def infoboxSearch (text : Str) : Option Str :=
  scanFirst matchInfobox text

/-- Position matcher for a labelled line field, regex
LABEL backslash-s* = backslash-s* (.+)
with IGNORECASE (page.py lines 101-109 and 150-151): after the label and
optional whitespace comes the equals sign; the greedy whitespace-star
after it backtracks until the greedy group (one or more newline-free
characters) can start; the group runs to the end of the line.
`labels` are the alternatives of the pattern, tried in order. -/
def matchLabeledValue (labels : List Str) (s : Str) : Option Str :=
  labels.firstM fun lab =>
    match stripPrefixFold lab s with
    | some rest =>
      let r1 := rest.dropWhile isWs
      match r1 with
      | '=' :: r2 => wsThenLine ((r2.takeWhile isWs).length) r2
      | _ => none
    | none => none
where
  firstM {α β : Type} (l : List α) (f : α → Option β) : Option β :=
    match l with
    | [] => none
    | x :: xs =>
      match f x with
      | some b => some b
      | none => firstM xs f
  /-- backslash-s* (.+): consume n whitespace characters (maximal first,
  backtracking down), then require one newline-free character; the group
  is the rest of the line. -/
  wsThenLine : Nat → Str → Option Str
    | n, r2 =>
      let cur := r2.drop n
      match cur with
      | c :: _ =>
        if c ≠ nlChar then some (cur.takeWhile fun x => x ≠ nlChar)
        else fallback n r2
      | [] => fallback n r2
  fallback : Nat → Str → Option Str
    | 0, _ => none
    | m + 1, r2 => wsThenLine m r2

/-- Leftmost search for a labelled line field. -/
def searchLabeled (labels : List Str) (content : Str) : Option Str :=
  scanFirst (matchLabeledValue labels) content

/-- Position matcher for the year field (page.py line 122), regex
année backslash-s* = backslash-s* ( backslash-d {4} ) with IGNORECASE:
after the equals sign the whitespace-star cannot backtrack usefully
(digits are not whitespace), so the reading is: skip whitespace, then
require four digits; the group is those four digits. -/
def matchYear (s : Str) : Option Nat :=
  match stripPrefixFold ("année".toList) s with
  | some rest =>
    let r1 := rest.dropWhile isWs
    match r1 with
    | '=' :: r2 =>
      let r3 := r2.dropWhile isWs
      match r3 with
      | a :: b :: c :: d :: _ =>
        if isDigitCh a && isDigitCh b && isDigitCh c && isDigitCh d then
          some (natOfDigits [a, b, c, d])
        else none
      | _ => none
    | _ => none
  | none => none

/-- First window of four consecutive digits reachable by a newline-free
lazy dot-star (the tail of the release-date pattern). -/
def find4Digits : Str → Option Nat
  | a :: b :: c :: d :: rest =>
    if isDigitCh a && isDigitCh b && isDigitCh c && isDigitCh d then
      some (natOfDigits [a, b, c, d])
    else if a = nlChar then none
    else find4Digits (b :: c :: d :: rest)
  | _ => none

/-- Position matcher for the release-date fallback (page.py lines
128-130), regex (?:sortie|date) backslash-s* = .*? ( backslash-d {4} )
with IGNORECASE: label, whitespace, equals sign, then the first window of
four digits on the same line. -/
def matchDate (s : Str) : Option Nat :=
  tryLabel ("sortie".toList) <|> tryLabel ("date".toList)
where
  tryLabel (lab : Str) : Option Nat :=
    match stripPrefixFold lab s with
    | some rest =>
      let r1 := rest.dropWhile isWs
      match r1 with
      | '=' :: r2 => find4Digits r2
      | _ => none
    | none => none

/-- First digit reachable by a newline-free lazy dot-star, with the greedy
digit run from there (the tail of the duration pattern). -/
def findDigitRun : Str → Option Str
  | [] => none
  | c :: cs =>
    if isDigitCh c then some ((c :: cs).takeWhile isDigitCh)
    else if c = nlChar then none
    else findDigitRun cs

/-- Position matcher for the duration field (page.py line 135), regex
durée backslash-s* = .*? ( backslash-d + ) with IGNORECASE. -/
def matchDuration (s : Str) : Option Nat :=
  match stripPrefixFold ("durée".toList) s with
  | some rest =>
    let r1 := rest.dropWhile isWs
    match r1 with
    | '=' :: r2 => (findDigitRun r2).map natOfDigits
    | _ => none
  | none => none

/-- First index at which newline + pipe or newline + rbrace + rbrace
starts (the terminator alternation of the actors pattern). -/
def findActorsTerm : Str → Option Nat
  | [] => none
  | a :: b :: rest =>
    if a = nlChar && (b = '|' || (b = rbrace && rest.head? = some rbrace)) then some 0
    else (findActorsTerm (b :: rest)).map (· + 1)
  | _ :: tl => (findActorsTerm tl).map (· + 1)

/-- Position matcher for the actors field (page.py lines 140-144), regex
acteur backslash-s* = backslash-s* (.+?) (?: backslash-n backslash-pipe |
backslash-n backslash-rbrace backslash-rbrace ) with IGNORECASE and
DOTALL: after the equals sign, the greedy whitespace-star backtracks from
longest to shortest until a nonempty lazy group can end at the first
following newline + pipe or newline + rbrace rbrace. -/
def matchActors (s : Str) : Option Str :=
  match stripPrefixFold ("acteur".toList) s with
  | some rest =>
    let r1 := rest.dropWhile isWs
    match r1 with
    | '=' :: r2 => wsThenGroup ((r2.takeWhile isWs).length) r2
    | _ => none
  | none => none
where
  /-- Consume n whitespace characters, then a group of at least one
  character up to the terminator; on failure backtrack n. -/
  wsThenGroup : Nat → Str → Option Str
    | n, r2 =>
      let cur := r2.drop n
      let attempt : Option Str :=
        match cur with
        | _ :: tl =>
          match findActorsTerm tl with
          | some i => some (cur.take (i + 1))
          | none => none
        | [] => none
      match attempt with
      | some g => some g
      | none =>
        match n with
        | 0 => none
        | m + 1 => wsThenGroup m r2

/-- Position matcher for the inter-language title template (page.py lines
159-161), regex backslash-lbrace backslash-lbrace Titre en langue
backslash-pipe en backslash-pipe ([Caret-rbrace]+) backslash-rbrace
backslash-rbrace with IGNORECASE. -/
def matchLangTitle (s : Str) : Option Str :=
  match stripPrefixFold ("\x7b\x7btitre en langue|en|".toList) s with
  | some rest =>
    let grp := rest.takeWhile fun c => c ≠ rbrace
    if grp.isEmpty then none
    else
      match rest.drop grp.length with
      | a :: b :: _ => if a = rbrace && b = rbrace then some grp else none
      | _ => none
  | none => none

/-- The group ([a-z]* backslash-d +) under IGNORECASE: a possibly-empty
run of ASCII letters followed by at least one digit; returns the matched
characters in their original case. -/
def letterDigitGroup (s : Str) : Option Str :=
  let letters := s.takeWhile isAsciiLetter
  let rest := s.drop letters.length
  let digits := rest.takeWhile isDigitCh
  if digits.isEmpty then none else some (letters ++ digits)

/-- Position matcher for the IMDb template (page.py lines 167-169), regex
backslash-lbrace backslash-lbrace IMDb backslash-s+ titre backslash-s*
backslash-pipe backslash-s* (?: id backslash-s* = backslash-s* )?
([a-z]* backslash-d +) with IGNORECASE.  The optional id part is tried
first; on its failure the group is read directly. -/
def matchImdbTemplate (s : Str) : Option Str :=
  match stripPrefixFold ("\x7b\x7bimdb".toList) s with
  | some rest =>
    let ws1 := rest.takeWhile isWs
    if ws1.isEmpty then none
    else
      match stripPrefixFold ("titre".toList) (rest.drop ws1.length) with
      | some r2 =>
        match r2.dropWhile isWs with
        | '|' :: r3 =>
          let r4 := r3.dropWhile isWs
          let withId : Option Str :=
            match stripPrefixFold ("id".toList) r4 with
            | some r5 =>
              match r5.dropWhile isWs with
              | '=' :: r6 => letterDigitGroup (r6.dropWhile isWs)
              | _ => none
            | none => none
          match withId with
          | some g => some g
          | none => letterDigitGroup r4
        | _ => none
      | none => none
  | none => none

/-- Position matcher for a direct IMDb URL (page.py line 175), regex
imdb backslash-. com/title/ (tt backslash-d +) with IGNORECASE; the group
keeps the original case of the two letters. -/
def matchImdbUrl (s : Str) : Option Str :=
  match stripPrefixFold ("imdb.com/title/".toList) s with
  | some rest =>
    match rest with
    | a :: b :: r2 =>
      if lowerChar a = 't' && lowerChar b = 't' then
        let digits := r2.takeWhile isDigitCh
        if digits.isEmpty then none else some (a :: b :: digits)
      else none
    | _ => none
  | none => none

/-- Position matcher for an IMDb field (page.py lines 181-183), regex
(?:IMDb|IMDB) backslash-s* = backslash-s* ([a-z]{2} backslash-d +) with
IGNORECASE: both label alternatives fold to "imdb"; the group is exactly
two ASCII letters followed by at least one digit. -/
def matchImdbField (s : Str) : Option Str :=
  match stripPrefixFold ("imdb".toList) s with
  | some rest =>
    let r1 := rest.dropWhile isWs
    match r1 with
    | '=' :: r2 =>
      match r2.dropWhile isWs with
      | a :: b :: r3 =>
        if isAsciiLetter a && isAsciiLetter b then
          let digits := r3.takeWhile isDigitCh
          if digits.isEmpty then none else some (a :: b :: digits)
        else none
      | _ => none
    | _ => none
  | none => none

/-- The record built by `extract_film_data` (page.py lines 72-87).  The
Python dictionary initialises every field to None (actors to the empty
list); optional fields stay absent on a pattern miss. -/
structure FilmData where
  title : Str
  original_title : Option Str := none
  english_title : Option Str := none
  director : Option Str := none
  year : Option Nat := none
  country : Option (List Str) := none
  genre : Option (List Str) := none
  duration_minutes : Option Nat := none
  actors : List Str := []
  writer : Option (List Str) := none
  producer : Option (List Str) := none
  budget : Option Str := none
  imdb_id : Option Str := none
  synopsis : Option Str := none
deriving Repr, DecidableEq

/-- `extract_film_data` (page.py lines 54-190), step for step in source
order.  The year check `if not film_data["year"]` is falsy for the value 0
as well as for an absent year, and the english-title check is falsy for
the empty string; both are reproduced.  The three IMDb methods always
capture at least one digit, so their results are never the empty string
and the falsy checks there reduce to absence checks. -/
def extract_film_data (title text : Str) : FilmData :=
  let base : FilmData := { title := cleanTitle title }
  match infoboxSearch text with
  | none => base
  | some content =>
    let origT := (searchLabeled [("titre original".toList)] content).map clean_value
    let direc := (searchLabeled [("réalisation".toList)] content).map clean_value
    let writ := (searchLabeled [("scénario".toList)] content).map parse_list
    let prod :=
      (searchLabeled [("producteur".toList), ("production".toList)] content).map parse_list
    let ctry := (searchLabeled [("pays".toList)] content).map parse_list
    let genr := (searchLabeled [("genre".toList)] content).map parse_list
    let budg := (searchLabeled [("budget".toList)] content).map clean_value
    let y1 := scanFirst matchYear content
    let year :=
      match y1 with
      | some n =>
        if n ≠ 0 then some n
        else
          match scanFirst matchDate content with
          | some d => some d
          | none => some 0
      | none => scanFirst matchDate content
    let dur := scanFirst matchDuration content
    let act :=
      match scanFirst matchActors content with
      | some g => parse_list g
      | none => []
    let e1 := (searchLabeled [("titre anglais".toList)] content).map clean_value
    let engl :=
      match e1 with
      | some v =>
        if v ≠ [] then some v
        else
          match scanFirst matchLangTitle text with
          | some g => some (clean_value g)
          | none => some v
      | none =>
        match scanFirst matchLangTitle text with
        | some g => some (clean_value g)
        | none => none
    let imdb :=
      match scanFirst matchImdbTemplate text with
      | some g => some g
      | none =>
        match scanFirst matchImdbUrl text with
        | some g => some g
        | none => scanFirst matchImdbField text
    { base with
      original_title := origT
      director := direc
      writer := writ
      producer := prod
      country := ctry
      genre := genr
      budget := budg
      year := year
      duration_minutes := dur
      actors := act
      english_title := engl
      imdb_id := imdb
      synopsis := extract_synopsis text }

/-!
## SHA-256 (the fingerprint function of src/filmoscopie/wikipedia/__init__.py)

The source computes fingerprints with `hashlib.sha256` over the UTF-8
encoding of the string (`hashes`, lines 15-21) and stores the lowercase
hexadecimal digest.  The full FIPS 180-4 algorithm is embedded below over
natural numbers, with all 32-bit arithmetic taken modulo 2^32.
-/

/-- 2^32. -/
def M32 : Nat := 4294967296

/-- 32-bit addition. -/
def add32 (a b : Nat) : Nat := (a + b) % M32

/-- 32-bit right rotation of a value below 2^32. -/
def rotr32 (n x : Nat) : Nat :=
  ((x >>> n) ||| (x <<< (32 - n))) % M32

/-- 32-bit complement. -/
def not32 (x : Nat) : Nat := x ^^^ (M32 - 1)

/-- UTF-8 encoding of one code point, as byte values. -/
def utf8Char (n : Nat) : List Nat :=
  if n < 128 then [n]
  else if n < 2048 then [192 ||| (n >>> 6), 128 ||| (n &&& 63)]
  else if n < 65536 then
    [224 ||| (n >>> 12), 128 ||| ((n >>> 6) &&& 63), 128 ||| (n &&& 63)]
  else
    [240 ||| (n >>> 18), 128 ||| ((n >>> 12) &&& 63),
     128 ||| ((n >>> 6) &&& 63), 128 ||| (n &&& 63)]

/-- UTF-8 encoding of a string (Python `str.encode()`). -/
def utf8Encode (s : Str) : List Nat :=
  s.flatMap fun c => utf8Char c.toNat

/-- The eight initial hash words of SHA-256. -/
def sha256H0 : List Nat :=
  [1779033703, 3144134277, 1013904242, 2773480762,
   1359893119, 2600822924, 528734635, 1541459225]

/-- The sixty-four round constants of SHA-256. -/
def sha256K : List Nat :=
  [1116352408, 1899447441, 3049323471, 3921009573, 961987163, 1508970993, 2453635748, 2870763221, 3624381080, 310598401, 607225278, 1426881987, 1925078388, 2162078206, 2614888103, 3248222580, 3835390401, 4022224774, 264347078, 604807628, 770255983, 1249150122, 1555081692, 1996064986, 2554220882, 2821834349, 2952996808, 3210313671, 3336571891, 3584528711, 113926993, 338241895, 666307205, 773529912, 1294757372, 1396182291, 1695183700, 1986661051, 2177026350, 2456956037, 2730485921, 2820302411, 3259730800, 3345764771, 3516065817, 3600352804, 4094571909, 275423344, 430227734, 506948616, 659060556, 883997877, 958139571, 1322822218, 1537002063, 1747873779, 1955562222, 2024104815, 2227730452, 2361852424, 2428436474, 2756734187, 3204031479, 3329325298]

/-- The working state of the compression function: eight 32-bit words. -/
structure Hash8 where
  a : Nat
  b : Nat
  c : Nat
  d : Nat
  e : Nat
  f : Nat
  g : Nat
  h : Nat
deriving Repr, DecidableEq

/-- Message padding: append the 0x80 byte, zero bytes up to 56 mod 64, and
the bit length as eight big-endian bytes. -/
def sha256Pad (msg : List Nat) : List Nat :=
  let len := msg.length
  let zeros := (64 + 56 - (len + 1) % 64) % 64
  let bitLen := len * 8
  msg ++ [128] ++ List.replicate zeros 0 ++
    [(bitLen >>> 56) % 256, (bitLen >>> 48) % 256, (bitLen >>> 40) % 256,
     (bitLen >>> 32) % 256, (bitLen >>> 24) % 256, (bitLen >>> 16) % 256,
     (bitLen >>> 8) % 256, bitLen % 256]

/-- Split a list into chunks of `n` (the 64-byte blocks); the fuel is the
list length, which `n ≥ 1` can never exhaust. -/
def chunkList (n : Nat) : Nat → List α → List (List α)
  | _, [] => []
  | 0, l => [l]
  | fuel + 1, l => l.take n :: chunkList n fuel (l.drop n)

/-- Big-endian 32-bit words from bytes. -/
def wordsOfBytes : List Nat → List Nat
  | a :: b :: c :: d :: rest => (((a * 256 + b) * 256 + c) * 256 + d) :: wordsOfBytes rest
  | _ => []

/-- The small sigma-0 schedule function. -/
def ssig0 (x : Nat) : Nat := rotr32 7 x ^^^ rotr32 18 x ^^^ (x >>> 3)

/-- The small sigma-1 schedule function. -/
def ssig1 (x : Nat) : Nat := rotr32 17 x ^^^ rotr32 19 x ^^^ (x >>> 10)

/-- The big Sigma-0 round function. -/
def bsig0 (x : Nat) : Nat := rotr32 2 x ^^^ rotr32 13 x ^^^ rotr32 22 x

/-- The big Sigma-1 round function. -/
def bsig1 (x : Nat) : Nat := rotr32 6 x ^^^ rotr32 11 x ^^^ rotr32 25 x

/-- Message-schedule extension: from the 16 block words to 64 words. -/
def sha256Schedule (w16 : List Nat) : List Nat :=
  go 48 w16
where
  go : Nat → List Nat → List Nat
    | 0, w => w
    | n + 1, w =>
      let i := w.length
      let x := add32 (add32 (w.getD (i - 16) 0) (ssig0 (w.getD (i - 15) 0)))
                     (add32 (w.getD (i - 7) 0) (ssig1 (w.getD (i - 2) 0)))
      go n (w ++ [x])

/-- One round of the compression function. -/
def sha256Round (st : Hash8) (kw : Nat × Nat) : Hash8 :=
  let t1 := add32 st.h (add32 (bsig1 st.e)
              (add32 ((st.e &&& st.f) ^^^ (not32 st.e &&& st.g))
                     (add32 kw.1 kw.2)))
  let t2 := add32 (bsig0 st.a)
              ((st.a &&& st.b) ^^^ (st.a &&& st.c) ^^^ (st.b &&& st.c))
  ⟨add32 t1 t2, st.a, st.b, st.c, add32 st.d t1, st.e, st.f, st.g⟩

/-- Process one 64-byte block. -/
def sha256Block (h : Hash8) (block : List Nat) : Hash8 :=
  let w := sha256Schedule (wordsOfBytes block)
  let st := (sha256K.zip w).foldl sha256Round h
  ⟨add32 h.a st.a, add32 h.b st.b, add32 h.c st.c, add32 h.d st.d,
   add32 h.e st.e, add32 h.f st.f, add32 h.g st.g, add32 h.h st.h⟩

/-- SHA-256 of a byte list: the eight final hash words. -/
def sha256Words (msg : List Nat) : Hash8 :=
  let padded := sha256Pad msg
  let blocks := chunkList 64 padded.length padded
  blocks.foldl sha256Block
    ⟨1779033703, 3144134277, 1013904242, 2773480762,
     1359893119, 2600822924, 528734635, 1541459225⟩

/-- The 32 digest bytes of the eight hash words, big-endian. -/
def bytesOfHash (h : Hash8) : List Nat :=
  [h.a, h.b, h.c, h.d, h.e, h.f, h.g, h.h].flatMap fun w =>
    [(w >>> 24) % 256, (w >>> 16) % 256, (w >>> 8) % 256, w % 256]

/-- Lowercase hexadecimal digit characters. -/
def hexChar (n : Nat) : Char :=
  if n < 10 then Char.ofNat (48 + n) else Char.ofNat (87 + n)

/-- Lowercase hexadecimal rendering of the digest bytes
(`hashlib`-style `hexdigest`). -/
def hexOfBytes (bs : List Nat) : Str :=
  bs.flatMap fun b => [hexChar (b / 16), hexChar (b % 16)]

/-- The fingerprint function of the source (`hashes`, lines 15-21 of
wikipedia/__init__.py, applied to one argument): the lowercase hex
SHA-256 digest of the UTF-8 encoding. -/
def hashStr (s : Str) : Str :=
  hexOfBytes (bytesOfHash (sha256Words (utf8Encode s)))

/-- `hashes` (wikipedia/__init__.py lines 15-21): each argument is hashed
independently; the tuple is modelled as a list. -/
def hashes (args : List Str) : List Str :=
  args.map hashStr

/-!
## Synchronization engine (src/filmoscopie/wikipedia/__init__.py)

`WikipediaFilmExtractor.parse_dump` (lines 65-150) reads the filtered page
stream in batches of 50.  For each batch it computes the title fingerprints,
runs one SELECT for the stored (title_hash, text_hash) pairs of those
fingerprints, builds a Python dict from the result (later pairs overwrite
earlier ones), and then processes each page: on an equal stored text hash a
touch (UPDATE of mtime for all rows with that title hash), on a missing
entry an insert with the next identity, and otherwise the modified-movie
UPDATE — whose SQL text (lines 118-130) carries three SET keywords and a
quoted parameter, and is rejected by the store as a syntax error, which the
model renders as a failing step.  A failing step aborts the run; the commit
at the end of each completed batch makes earlier batches durable, so the
model returns the state as of the last completed batch.

The store is the `movie` table (lines 50-61): one row carries id, title,
title_hash, text_hash, data and mtime.  The id column is the integer
primary key, so rows enumerate in insertion order; `maxId` models
`SELECT max(id)` with the None result mapped to 0 (lines 62-63).  The
timestamp `time.time()` is read once per run before the loop (line 77) and
is modelled as an opaque natural number.
-/

/-- One stored row of the `movie` table. -/
structure Row where
  id : Nat
  title : Str
  title_hash : Str
  text_hash : Str
  data : FilmData
  mtime : Nat
deriving Repr, DecidableEq

/-- The store: the rows of the `movie` table in insertion (rowid) order. -/
abbrev Store := List Row

/-- A page of the filtered stream: title and raw markup body. -/
abbrev Page := Str × Str

/-- `SELECT max(id) from movie`, with a None result read as 0
(lines 62-63). -/
def maxId (S : Store) : Nat :=
  (S.map Row.id).foldr max 0

/-- The batched lookup (lines 80-85): the (title_hash, text_hash) pairs of
the rows whose title hash is among the batch fingerprints, in row order. -/
def lookupBatch (S : Store) (hs : List Str) : List (Str × Str) :=
  (S.filter fun r => hs.contains r.title_hash).map fun r => (r.title_hash, r.text_hash)

/-- `dict(r).get(k)` (lines 86-92): a Python dict built from a pair list
keeps, for every key, the value of the last pair with that key. -/
def dictGet (l : List (Str × Str)) (k : Str) : Option Str :=
  match l with
  | [] => none
  | p :: rest =>
    match dictGet rest k with
    | some v => some v
    | none => if p.1 = k then some p.2 else none

/-- The touch statement (lines 94-97):
`UPDATE movie SET mtime=:mtime WHERE title_hash=:id` updates the mtime of
every row whose title hash matches. -/
def touchRow (m : Nat) (th : Str) (S : Store) : Store :=
  S.map fun r => if r.title_hash = th then { r with mtime := m } else r

/-- The exact SQL text of the modified-movie update (lines 118-123): an
UPDATE with three SET keywords, whose first assignment quotes the
parameter marker as a string literal. -/
def modifiedMovieSQL : Str :=
  "UPDATE movie\n    SET text_hash=".toList ++ [squote] ++ ":text_hash".toList
    ++ [squote] ++ "\n    SET data = jsonb(:data)\n    SET mtime = :mtime\n    WHERE title_hash=:id;".toList

/-- Number of occurrences of the keyword SET in a statement. -/
def countSET : Str → Nat
  | 'S' :: 'E' :: 'T' :: rest => 1 + countSET rest
  | _ :: rest => countSET rest
  | [] => 0

/-- The actions the engine performs on the store, for observation. -/
inductive EngAction where
  | touch (th : Str)
  | insert (id : Nat) (th : Str)
deriving Repr, DecidableEq

/-- The in-flight state of a run: the store as seen by the open
connection, the identity counter `current_id`, and the trace of performed
actions. -/
structure EngState where
  store : Store
  currentId : Nat
  acts : List EngAction
deriving Repr, DecidableEq

/-- Processing of one page (lines 90-130).  `olds` is the dict of the
batch lookup, fixed at the start of the batch; `m` is the run timestamp.
On a content-fingerprint match: touch.  On a lookup miss: extract and
insert with the incremented identity counter.  Otherwise the source
executes the malformed modified-movie UPDATE; the store rejects it
(sqlite3.OperationalError), modelled as `none`. -/
def pageStep (olds : List (Str × Str)) (m : Nat) (st : EngState) (p : Page) :
    Option EngState :=
  let th := hashStr p.1
  let xh := hashStr p.2
  let old := dictGet olds th
  if old = some xh then
    some { st with store := touchRow m th st.store,
                   acts := st.acts ++ [EngAction.touch th] }
  else
    let film := extract_film_data p.1 p.2
    match old with
    | none =>
      some { store := st.store ++ [⟨st.currentId + 1, p.1, th, xh, film, m⟩],
             currentId := st.currentId + 1,
             acts := st.acts ++ [EngAction.insert (st.currentId + 1) th] }
    | some _ => none

/-- Processing of one batch (lines 78-143): one lookup for the whole
batch, then the page loop. -/
def batchStep (m : Nat) (st : EngState) (batch : List Page) : Option EngState :=
  let olds := lookupBatch st.store (batch.map fun p => hashStr p.1)
  batch.foldlM (pageStep olds m) st

/-- The batch loop with the per-batch commit (line 143): a failing batch
aborts the run and its uncommitted work is lost, so the state of the last
completed batch is returned, with the flag false. -/
def runBatches (m : Nat) : EngState → List (List Page) → EngState × Bool
  | st, [] => (st, true)
  | st, b :: bs =>
    match batchStep m st b with
    | some st' => runBatches m st' bs
    | none => (st, false)

/-- `parse_dump` (lines 65-150) over an already-filtered page stream: the
identity counter is seeded from the maximum stored identity read at
start-up, the stream is cut into batches of 50, and the batches are
processed in order. -/
def parse_dump (S : Store) (pages : List Page) (m : Nat) : EngState × Bool :=
  runBatches m ⟨S, maxId S, []⟩ (chunkList 50 pages.length pages)

/-- The classifier filter of the stream `_pages` (lines 152-157). -/
def pageFilter (p : Page) : Bool :=
  is_film_article p.2 && !(is_draft p.2) && !(is_sub_theme p.2)

/-!
## The batched lookup query string (lines 80-84)

The SELECT is built by interpolating the quoted title fingerprints into
the IN list of the statement text.
-/

/-- One quoted SQL string literal. -/
def quoteSQL (s : Str) : Str :=
  squote :: s ++ [squote]

/-- Comma-separated join (`",".join`). -/
def joinComma : List Str → Str
  | [] => []
  | [x] => x
  | x :: y :: rest => x ++ [','] ++ joinComma (y :: rest)

/-- The interpolated lookup statement (lines 82-83). -/
def lookupSQL (hs : List Str) : Str :=
  "SELECT title_hash, text_hash FROM movie WHERE title_hash IN (".toList
    ++ joinComma (hs.map quoteSQL) ++ ");".toList

/-- The lowercase hexadecimal alphabet. -/
def hexAlphabet : List Char :=
  "0123456789abcdef".toList

/-- A model of the store lexing the interpolated IN list back into string
values: a comma-separated sequence of quoted literals.  A quote character
inside a value would end the literal early, so the round trip below holds
only because digests contain no metacharacters. -/
def parseInList : Nat → Str → Option (List Str)
  | _, [] => none
  | 0, _ => none
  | fuel + 1, c :: rest =>
    if c = squote then
      let v := rest.takeWhile fun x => x ≠ squote
      match rest.drop v.length with
      | q :: ',' :: more => if q = squote then (parseInList fuel more).map (v :: ·) else none
      | [q] => if q = squote then some [v] else none
      | _ => none
    else none

/-- The IN-list reading of the interpolated fingerprints. -/
def parseInListAll (s : Str) : Option (List Str) :=
  parseInList (s.length + 1) s

/-!
## Spec-side synopsis boundary

The specification describes the synopsis section as running "up to the
next top-level heading or end of document".  This definition follows the
words of the specification literally (a top-level heading line starts with
exactly two equals signs), to be compared against `extract_synopsis`,
whose terminator `\n==` also stops at subsection headings. -/

/-- First index at which a newline followed by a top-level (level-2)
heading opener starts: newline, two equals signs, then not a third one. -/
def spec_findTopLevel : Str → Option Nat
  | a :: b :: c :: rest =>
    if a = nlChar && b = '=' && c = '=' && rest.head? ≠ some '=' then some 0
    else (spec_findTopLevel (b :: c :: rest)).map (· + 1)
  | _ => none

/-- The section matcher of the specification: as `matchHeadingSection`,
but the section text runs to the next top-level heading or the end of the
document. -/
def spec_matchHeadingSection (heading : Str) (s : Str) : Option Str :=
  match s with
  | '=' :: '=' :: rest =>
    let r1 := rest.dropWhile isWs
    match stripPrefixFold heading r1 with
    | some r2 =>
      let r3 := r2.dropWhile isWs
      match r3 with
      | '=' :: '=' :: r4 =>
        let ws := r4.takeWhile isWs
        match (ws.reverse.findIdx? fun c => c = nlChar) with
        | some i =>
          let body := r4.drop (ws.length - 1 - i + 1)
          match spec_findTopLevel body with
          | some j => some (body.take j)
          | none => some body
        | none => none
      | _ => none
    | none => none
  | _ => none

/-- The synopsis extraction described by the specification: the five
headings in priority order, each section read up to the next top-level
heading or end of document, cleaned, accepted at 50 characters or more. -/
def spec_extract_synopsis (text : Str) : Option Str :=
  go synHeadings
where
  go : List Str → Option Str
    | [] => none
    | h :: hs =>
      match scanFirst (spec_matchHeadingSection h) text with
      | some raw =>
        let cleaned := clean_synopsis raw
        if cleaned.length ≥ 50 then some cleaned else go hs
      | none => go hs

/-- The identity-carrying fields of a row: everything except the last-seen
timestamp. -/
def Row.sig (r : Row) : Nat × Str × Str × Str × FilmData :=
  (r.id, r.title, r.title_hash, r.text_hash, r.data)

/-!
## Concrete fixtures used by the counterexamples and witnesses
-/

/-- A page stream in which the same title appears twice with different
bodies. -/
def pagesDup : List Page :=
  [("T".toList, "x".toList), ("T".toList, "y".toList)]

/-- A single-page stream. -/
def pagesOne : List Page :=
  [("T".toList, "x".toList)]

/-- A store holding exactly the row the engine would have written for the
page ("T", "x"). -/
def storeTx : Store :=
  [⟨1, "T".toList, hashStr ("T".toList), hashStr ("x".toList),
    extract_film_data ("T".toList) ("x".toList), 0⟩]

/-- Markup whose actor field splits into eleven pieces. -/
def markupElevenActors : Str :=
  ("\x7b\x7bInfobox Film\n| acteur = A1, B2, C3, D4, E5, F6, G7, H8, I9, J10, K11\n| pays = France\n\x7d\x7d\n").toList

/-- Markup with a synopsis section that contains a subsection heading:
thirty characters before the subsection, one hundred after it. -/
def markupSubSection : Str :=
  "== Synopsis ==\n".toList ++ List.replicate 30 'a'
    ++ "\n=== Partie ===\n".toList ++ List.replicate 100 'b'

/-- A single-page stream whose title is stored with a different body. -/
def pagesModified : List Page :=
  [("T".toList, "y".toList)]

/-!
## Helper lemmas
-/

theorem startsWithFold_eq (pat s : Str) :
    startsWithFold pat s = startsWithStr pat (s.map lowerChar) := by
  induction s generalizing pat with
  | nil => cases pat <;> rfl
  | cons c cs ih =>
    cases pat with
    | nil => rfl
    | cons p ps => simp [startsWithFold, startsWithStr, ih]

theorem splitAtFold_go_isSome (pat acc : Str) (s : Str) :
    (splitAtFold.go pat acc s).isSome = containsStr pat (s.map lowerChar) := by
  induction s generalizing acc with
  | nil =>
    have h0 : containsStr pat ([] : Str) = startsWithStr pat [] := rfl
    have h1 : startsWithFold pat [] = startsWithStr pat [] := by
      simpa using startsWithFold_eq pat []
    simp only [splitAtFold.go, List.map_nil, h0, ← h1]
    cases h : startsWithFold pat [] <;> simp [h]
  | cons c cs ih =>
    have hmap : (c :: cs).map lowerChar = lowerChar c :: cs.map lowerChar := rfl
    rw [hmap]
    simp only [splitAtFold.go, containsStr, ← hmap, ← startsWithFold_eq]
    cases h : startsWithFold pat (c :: cs) <;> simp [h, ih]

theorem containsFold_eq (pat s : Str) :
    containsFold pat s = containsStr pat (s.map lowerChar) := by
  simp [containsFold, splitAtFold, splitAtFold_go_isSome]

theorem rfindDot2000_lt (s : Str) : rfindDot2000 s < 2000 := by
  unfold rfindDot2000
  cases h : (s.take 2000).reverse.findIdx? (fun c => c = '.') with
  | none => norm_num
  | some i =>
    have hlen : (s.take 2000).length ≤ 2000 := by
      simp [List.length_take]
    have hnat : (s.take 2000).length - 1 - i < 2000 := by omega
    simpa using hnat


theorem subGo_replicate_a (f : Str → Option (Str × Str))
    (hf : ∀ m : Nat, f (List.replicate (m + 1) 'a') = none) :
    ∀ fuel n, subGo f fuel (List.replicate n 'a') = List.replicate n 'a' := by
  intro fuel
  induction fuel with
  | zero => intro n; cases n <;> rfl
  | succ fuel ih =>
    intro n
    cases n with
    | zero => rfl
    | succ m =>
      show subGo f (fuel + 1) ('a' :: List.replicate m 'a') = _
      unfold subGo
      have : f ('a' :: List.replicate m 'a') = none := hf m
      rw [this, ih m]
      rfl

theorem matchEqHeading_a (l : Str) : matchEqHeading ('a' :: l) = none := rfl

theorem matchWikiLink_a (l : Str) : matchWikiLink ('a' :: l) = none := by
  cases l <;> rfl

theorem matchExtLinkText_a (l : Str) : matchExtLinkText ('a' :: l) = none := rfl

theorem matchExtLinkBare_a (l : Str) : matchExtLinkBare ('a' :: l) = none := rfl

theorem matchHtmlTag_a (l : Str) : matchHtmlTag ('a' :: l) = none := rfl

theorem matchRefTemplate_a (l : Str) : matchRefTemplate ('a' :: l) = none := by
  cases l with
  | nil => rfl
  | cons b l2 => cases l2 <;> rfl

theorem matchRefPair_a (l : Str) : matchRefPair ('a' :: l) = none := rfl

theorem matchRefSingle_a (l : Str) : matchRefSingle ('a' :: l) = none := rfl

theorem matchTemplate_a (l : Str) : matchTemplate ('a' :: l) = none := by
  cases l <;> rfl

theorem matchQuoteRun_a (l : Str) : matchQuoteRun ('a' :: l) = none := rfl

theorem matchNlRun_a (l : Str) : matchNlRun ('a' :: l) = none := rfl

theorem matchSpaceRun_a (l : Str) : matchSpaceRun ('a' :: l) = none := rfl

theorem subAll_replicate_a (f : Str → Option (Str × Str))
    (hf : ∀ l : Str, f ('a' :: l) = none) (n : Nat) :
    subAll f (List.replicate n 'a') = List.replicate n 'a' := by
  unfold subAll
  exact subGo_replicate_a f (fun m => hf (List.replicate m 'a')) _ n

theorem stripWs_replicate_a (n : Nat) :
    stripWs (List.replicate n 'a') = List.replicate n 'a' := by
  unfold stripWs
  have hdrop : ∀ m : Nat, (List.replicate m 'a').dropWhile isWs = List.replicate m 'a' := by
    intro m; cases m <;> rfl
  rw [hdrop, List.reverse_replicate, hdrop, List.reverse_replicate]

theorem cleanSynopsisPre_replicate (n : Nat) :
    cleanSynopsisPre (List.replicate n 'a') = List.replicate n 'a' := by
  show stripWs (subAll matchSpaceRun (subAll matchNlRun (subAll matchQuoteRun (subAll matchTemplate (subAll matchRefSingle (subAll matchRefPair (subAll matchRefTemplate (subAll matchHtmlTag (subAll matchExtLinkBare (subAll matchExtLinkText (subAll matchWikiLink (subAll matchEqHeading (List.replicate n 'a'))))))))))))) = List.replicate n 'a'
  rw [subAll_replicate_a _ matchEqHeading_a, subAll_replicate_a _ matchWikiLink_a,
    subAll_replicate_a _ matchExtLinkText_a, subAll_replicate_a _ matchExtLinkBare_a,
    subAll_replicate_a _ matchHtmlTag_a, subAll_replicate_a _ matchRefTemplate_a,
    subAll_replicate_a _ matchRefPair_a, subAll_replicate_a _ matchRefSingle_a,
    subAll_replicate_a _ matchTemplate_a, subAll_replicate_a _ matchQuoteRun_a,
    subAll_replicate_a _ matchNlRun_a, subAll_replicate_a _ matchSpaceRun_a,
    stripWs_replicate_a]

theorem findIdx_dot_replicate_a (n : Nat) :
    (List.replicate n 'a').findIdx? (fun c => c = '.') = none := by
  rw [List.findIdx?_eq_none_iff]
  intro x hx
  rw [List.eq_of_mem_replicate hx]
  decide

theorem rfindDot2000_replicate_2001 :
    rfindDot2000 (List.replicate 2001 'a') = -1 := by
  unfold rfindDot2000
  rw [List.take_replicate, List.reverse_replicate, findIdx_dot_replicate_a]

theorem truncateSynopsis_replicate_2001 :
    truncateSynopsis (List.replicate 2001 'a')
      = (List.replicate 2001 'a').take 2000 ++ "...".toList := by
  unfold truncateSynopsis
  rw [if_pos (by rw [List.length_replicate]; norm_num),
    rfindDot2000_replicate_2001, if_neg (by norm_num)]

/-!
## Claims
-/

/-- Claim C5, counterexample: the claim states that all three classifier
predicates match their markers case-insensitively; but changing only the
case of the stub marker flips `is_draft`. -/
theorem C5_counterexample :
    is_draft ("\x7b\x7bébauche|film".toList) = true ∧
    is_draft ("\x7b\x7bÉbauche|film".toList) = false := by
  constructor <;> decide

/-- Claim C5, amended: the film and cinéma infobox markers of
`is_film_article` are matched case-insensitively (the substring tests
depend only on the case-folded text), while `is_draft`, `is_sub_theme`
and the "(personnalité)" exclusion inside `is_film_article` use
case-sensitive search, so a case change there flips the result. -/
theorem C5_amended :
    (∀ s t : Str, s.map lowerChar = t.map lowerChar →
      containsFold ("\x7b\x7binfobox film".toList) s
        = containsFold ("\x7b\x7binfobox film".toList) t ∧
      containsFold ("\x7b\x7binfobox cinéma".toList) s
        = containsFold ("\x7b\x7binfobox cinéma".toList) t) ∧
    is_film_article ("\x7b\x7bINFOBOX FILM".toList) = true ∧
    is_film_article ("\x7b\x7bInfobox film".toList) = true ∧
    is_sub_theme ("\x7b\x7bInfobox Cinéma (festival)".toList) = true ∧
    is_sub_theme ("\x7b\x7bINFOBOX CINÉMA (FESTIVAL)".toList) = false ∧
    is_film_article ("\x7b\x7bInfobox Cinéma (personnalité)".toList) = false ∧
    is_film_article ("\x7b\x7bInfobox Cinéma (PERSONNALITÉ)".toList) = true := by
  refine ⟨fun s t h => ⟨?_, ?_⟩, ?_, ?_, ?_, ?_, ?_, ?_⟩
  · rw [containsFold_eq, containsFold_eq, h]
  · rw [containsFold_eq, containsFold_eq, h]
  all_goals decide

/-- Claim C5, witness for the amended theorem at a concrete case pair. -/
theorem C5_witness :
    ("infobox FILM x".toList.map lowerChar = "Infobox film X".toList.map lowerChar) ∧
    (containsFold ("\x7b\x7binfobox film".toList) ("infobox FILM x".toList)
        = containsFold ("\x7b\x7binfobox film".toList) ("Infobox film X".toList) ∧
     containsFold ("\x7b\x7binfobox cinéma".toList) ("infobox FILM x".toList)
        = containsFold ("\x7b\x7binfobox cinéma".toList) ("Infobox film X".toList)) :=
  ⟨by decide, C5_amended.1 _ _ (by decide)⟩

/-- Claim C4, counterexample: the claim caps the actors list at ten
entries; the extractor keeps all eleven pieces of the fixture. -/
theorem C4_counterexample :
    (extract_film_data ("T".toList) markupElevenActors).actors.length = 11 := by
  decide

/-- Claim C4, amended: `parse_list` does not cap any list: every split
piece that passes the raw nonempty-and-longer-than-one filter yields
exactly one entry, for the actors field just as for the other list
fields. -/
theorem C4_amended (raw : Str) :
    (parse_list raw).length
      = ((splitSeps raw).filter fun item => item.length > 1).length := by
  simp [parse_list]

/-- Claim C8: when no infobox matches, `extract_film_data` returns the
record with only the title set; together with the totality of the
embedded extractor (every field either parses or stays absent — in
particular the year and duration captures consist of digits only, so
their numeric conversion is total), this is the never-fails contract. -/
theorem C8_no_infobox (title text : Str) (h : infoboxSearch text = none) :
    extract_film_data title text = { title := cleanTitle title } := by
  unfold extract_film_data
  rw [h]

/-- Claim C8, witness: a concrete markup without infobox. -/
theorem C8_witness :
    infoboxSearch ("Aucune infobox ici.".toList) = none ∧
    extract_film_data ("T (film)".toList) ("Aucune infobox ici.".toList)
      = { title := cleanTitle ("T (film)".toList) } :=
  ⟨by decide, C8_no_infobox _ _ (by decide)⟩

/-- Claim C3, counterexample: the claim bounds the returned synopsis by
2000 characters in all cases, but on the hard-cut branch the source
appends a three-character ellipsis after cutting at 2000, so a cleaned
synopsis of 2001 characters without a sentence dot comes back with 2003
characters. -/
theorem C3_counterexample :
    (clean_synopsis (List.replicate 2001 'a')).length = 2003 := by
  have h1 : cleanSynopsisPre (List.replicate 2001 'a') = List.replicate 2001 'a' :=
    cleanSynopsisPre_replicate 2001
  have h2 : clean_synopsis (List.replicate 2001 'a')
      = truncateSynopsis (List.replicate 2001 'a') := by
    rw [clean_synopsis, h1]
  rw [h2, truncateSynopsis_replicate_2001, List.take_replicate, List.length_append,
    List.length_replicate]
  rfl

/-- Claim C3, amended: a cleaned synopsis longer than 2000 characters is
cut at the last sentence dot before position 2000 when that dot lies past
position 1000 (yielding at most 2000 characters), and otherwise hard-cut
at 2000 characters with a three-character ellipsis appended (yielding
exactly 2003 characters); the result therefore has at most 2003
characters, not 2000. -/
theorem C3_amended (s : Str) (h : 2000 < (cleanSynopsisPre s).length) :
    (1000 < rfindDot2000 (cleanSynopsisPre s) →
      clean_synopsis s
        = (cleanSynopsisPre s).take ((rfindDot2000 (cleanSynopsisPre s)).toNat + 1) ∧
      (clean_synopsis s).length ≤ 2000) ∧
    (¬ 1000 < rfindDot2000 (cleanSynopsisPre s) →
      clean_synopsis s = (cleanSynopsisPre s).take 2000 ++ "...".toList ∧
      (clean_synopsis s).length = 2003) ∧
    (clean_synopsis s).length ≤ 2003 := by
  have hdef : clean_synopsis s = truncateSynopsis (cleanSynopsisPre s) := rfl
  have hlt := rfindDot2000_lt (cleanSynopsisPre s)
  by_cases hcut : 1000 < rfindDot2000 (cleanSynopsisPre s)
  · have heq : clean_synopsis s
        = (cleanSynopsisPre s).take ((rfindDot2000 (cleanSynopsisPre s)).toNat + 1) := by
      rw [hdef]
      unfold truncateSynopsis
      rw [if_pos (by omega), if_pos hcut]
    have hlen : (clean_synopsis s).length ≤ 2000 := by
      rw [heq, List.length_take]
      have : (rfindDot2000 (cleanSynopsisPre s)).toNat + 1 ≤ 2000 := by omega
      omega
    exact ⟨fun _ => ⟨heq, hlen⟩, fun hn => absurd hcut hn, by omega⟩
  · have heq : clean_synopsis s = (cleanSynopsisPre s).take 2000 ++ "...".toList := by
      rw [hdef]
      unfold truncateSynopsis
      rw [if_pos (by omega), if_neg hcut]
    have hlen : (clean_synopsis s).length = 2003 := by
      rw [heq, List.length_append, List.length_take]
      have : min 2000 (cleanSynopsisPre s).length = 2000 := by omega
      rw [this]
      rfl
    exact ⟨fun hc => absurd hc hcut, fun _ => ⟨heq, hlen⟩, by omega⟩

/-- Claim C3, witness for the amended theorem at the 2001-character
fixture. -/
theorem C3_witness :
    2000 < (cleanSynopsisPre (List.replicate 2001 'a')).length ∧
    ((1000 < rfindDot2000 (cleanSynopsisPre (List.replicate 2001 'a')) →
      clean_synopsis (List.replicate 2001 'a')
        = (cleanSynopsisPre (List.replicate 2001 'a')).take
            ((rfindDot2000 (cleanSynopsisPre (List.replicate 2001 'a'))).toNat + 1) ∧
      (clean_synopsis (List.replicate 2001 'a')).length ≤ 2000) ∧
    (¬ 1000 < rfindDot2000 (cleanSynopsisPre (List.replicate 2001 'a')) →
      clean_synopsis (List.replicate 2001 'a')
        = (cleanSynopsisPre (List.replicate 2001 'a')).take 2000 ++ "...".toList ∧
      (clean_synopsis (List.replicate 2001 'a')).length = 2003) ∧
    (clean_synopsis (List.replicate 2001 'a')).length ≤ 2003) :=
  ⟨by rw [cleanSynopsisPre_replicate, List.length_replicate]; norm_num,
   C3_amended _ (by rw [cleanSynopsisPre_replicate, List.length_replicate]; norm_num)⟩

set_option maxRecDepth 40000 in
/-- Claim C1 (code bug): the modified-movie branch builds an UPDATE whose
text contains three SET keywords (and quotes the text_hash parameter
marker inside a string literal), which the relational store rejects as a
syntax error; so on a page whose stored fingerprint differs nothing is
updated and the run aborts: the engine returns the committed state
unchanged with the failure flag. -/
theorem C1_update_rejected :
    countSET modifiedMovieSQL = 3 ∧
    containsStr (squote :: ":text_hash".toList ++ [squote]) modifiedMovieSQL = true ∧
    parse_dump storeTx pagesModified 5 = (⟨storeTx, 1, []⟩, false) := by
  refine ⟨by decide, by decide, ?_⟩
  decide

set_option maxRecDepth 40000 in
/-- Claim C9, counterexample: the claim takes each section up to the next
top-level heading; on a synopsis section interrupted by a subsection
heading (thirty characters before it, one hundred after), the
specification reading yields a synopsis, while `extract_synopsis` stops at
the subsection terminator, rejects the thirty-character remainder and
returns none. -/
theorem C9_counterexample :
    extract_synopsis markupSubSection = none ∧
    (spec_extract_synopsis markupSubSection).isSome = true := by
  constructor <;> decide

theorem scanFirst_some {α : Type} (f : Str → Option α) (s : Str) (a : α)
    (h : scanFirst f s = some a) : ∃ s', f s' = some a := by
  induction s with
  | nil => exact ⟨[], h⟩
  | cons c cs ih =>
    unfold scanFirst at h
    cases hf : f (c :: cs) with
    | some b => rw [hf] at h; exact ⟨c :: cs, by rw [hf, ← h]⟩
    | none => rw [hf] at h; exact ih h

theorem startsWith3_eq (p1 p2 p3 a b c : Char) (t : Str) :
    startsWithStr [p1, p2, p3] (a :: b :: c :: t) = (a = p1 && b = p2 && c = p3) := by
  simp only [startsWithStr, Bool.and_true]
  rw [show (decide (p1 = a)) = (decide (a = p1)) from decide_eq_decide.mpr eq_comm,
      show (decide (p2 = b)) = (decide (b = p2)) from decide_eq_decide.mpr eq_comm,
      show (decide (p3 = c)) = (decide (c = p3)) from decide_eq_decide.mpr eq_comm,
      ← Bool.and_assoc]

theorem findNlEqEq_none : ∀ s : Str, findNlEqEq s = none →
    containsStr (nlChar :: '=' :: '=' :: []) s = false
  | [], _ => rfl
  | [a], _ => by simp [containsStr, startsWithStr]
  | [a, b], _ => by simp [containsStr, startsWithStr]
  | a :: b :: c :: rest, h => by
    rw [findNlEqEq] at h
    cases hcond : (a = nlChar && b = '=' && c = '=') with
    | true => rw [hcond] at h; simp at h
    | false =>
      rw [hcond] at h
      simp only [Bool.false_eq_true, if_false, Option.map_eq_none'] at h
      have ih := findNlEqEq_none (b :: c :: rest) h
      show (startsWithStr _ _ || containsStr _ _) = false
      rw [ih, Bool.or_false, startsWith3_eq, hcond]

theorem findNlEqEq_some : ∀ (s : Str) (i : Nat), findNlEqEq s = some i →
    containsStr (nlChar :: '=' :: '=' :: []) (s.take i) = false
  | [], i, h => by simp [findNlEqEq] at h
  | [a], i, h => by simp [findNlEqEq] at h
  | [a, b], i, h => by simp [findNlEqEq] at h
  | a :: b :: c :: rest, i, h => by
    rw [findNlEqEq] at h
    cases hcond : (a = nlChar && b = '=' && c = '=') with
    | true =>
      rw [hcond] at h
      simp only [if_true] at h
      cases h
      rfl
    | false =>
      rw [hcond] at h
      simp only [Bool.false_eq_true, if_false, Option.map_eq_some'] at h
      obtain ⟨j, hj, hji⟩ := h
      have ih := findNlEqEq_some (b :: c :: rest) j hj
      subst hji
      show containsStr _ (a :: (b :: c :: rest).take j) = false
      have hsw : startsWithStr (nlChar :: '=' :: '=' :: []) (a :: (b :: c :: rest).take j) = false := by
        match j with
        | 0 => simp [startsWithStr]
        | 1 => simp [startsWithStr]
        | j' + 2 =>
          show startsWithStr _ (a :: b :: c :: rest.take j') = false
          rw [startsWith3_eq, hcond]
      show (startsWithStr _ _ || containsStr _ _) = false
      rw [hsw, ih]
      rfl

theorem matchHeadingSection_no_term (hd s raw : Str)
    (hm : matchHeadingSection hd s = some raw) :
    containsStr (nlChar :: '=' :: '=' :: []) raw = false := by
  unfold matchHeadingSection at hm
  split at hm
  case _ rest =>
    try dsimp only at hm
    split at hm
    case _ r2 hr2 =>
      split at hm
      case _ r4 =>
        try dsimp only at hm
        split at hm
        case _ j hj =>
          try dsimp only at hm
          split at hm
          case _ i hi =>
            cases hm
            exact findNlEqEq_some _ _ hi
          case _ hi =>
            cases hm
            exact findNlEqEq_none _ hi
        case _ => cases hm
      case _ => cases hm
    case _ => cases hm
  case _ => cases hm

theorem extract_synopsis_go_eq (text : Str) (hs : List Str) :
    extract_synopsis.go text hs
      = ((hs.filterMap fun h => (sectionSearch h text).map clean_synopsis).find?
          fun c => 50 ≤ c.length) := by
  induction hs with
  | nil => rfl
  | cons h t ih =>
    unfold extract_synopsis.go
    cases hsec : sectionSearch h text with
    | none => simp only [List.filterMap_cons, hsec]; exact ih
    | some raw =>
      simp only [List.filterMap_cons, hsec, Option.map_some', List.find?_cons]
      by_cases hlen : 50 ≤ (clean_synopsis raw).length
      · simp [hlen]
      · simp [hlen, ih]

theorem C9_amended (text : Str) :
    (extract_synopsis text
      = (synHeadings.filterMap fun h => (sectionSearch h text).map clean_synopsis).find?
          (fun c => 50 ≤ c.length)) ∧
    (∀ hd raw : Str, sectionSearch hd text = some raw →
      containsStr (nlChar :: '=' :: '=' :: []) raw = false) := by
  constructor
  · exact extract_synopsis_go_eq text synHeadings
  · intro hd raw hsr
    obtain ⟨s', hs'⟩ := scanFirst_some _ _ _ hsr
    exact matchHeadingSection_no_term hd s' raw hs'

set_option maxRecDepth 40000 in
theorem C9_witness :
    sectionSearch ("synopsis".toList) markupSubSection = some (List.replicate 30 'a') ∧
    containsStr (nlChar :: '=' :: '=' :: []) (List.replicate 30 'a') = false :=
  ⟨by decide, (C9_amended markupSubSection).2 ("synopsis".toList) (List.replicate 30 'a') (by decide)⟩

theorem hashStr_length (s : Str) : (hashStr s).length = 64 := rfl

theorem bytesOfHash_lt (h : Hash8) : ∀ b ∈ bytesOfHash h, b < 256 := by
  intro b hb
  simp only [bytesOfHash, List.flatMap_cons, List.flatMap_nil, List.append_nil,
    List.mem_append, List.mem_cons, List.not_mem_nil, or_false] at hb
  rcases hb with ((h1|h1|h1|h1)|(h1|h1|h1|h1)|(h1|h1|h1|h1)|(h1|h1|h1|h1)|(h1|h1|h1|h1)|(h1|h1|h1|h1)|(h1|h1|h1|h1)|h1|h1|h1|h1) <;>
    (subst h1; exact Nat.mod_lt _ (by norm_num))

theorem hexChar_mem : ∀ n : Nat, n < 16 → hexChar n ∈ hexAlphabet := by decide

theorem hashStr_hex (s : Str) : ∀ c ∈ hashStr s, c ∈ hexAlphabet := by
  intro c hc
  unfold hashStr hexOfBytes at hc
  rw [List.mem_flatMap] at hc
  obtain ⟨b, hb, hcb⟩ := hc
  have hlt := bytesOfHash_lt _ b hb
  simp only [List.mem_cons, List.not_mem_nil, or_false] at hcb
  rcases hcb with h1 | h1 <;> subst h1
  · exact hexChar_mem _ (by omega)
  · exact hexChar_mem _ (Nat.mod_lt _ (by norm_num))

theorem takeWhile_no_squote (v : Str) (w : Str) (hv : ∀ c ∈ v, c ≠ squote) :
    (v ++ squote :: w).takeWhile (fun x => x ≠ squote) = v := by
  induction v with
  | nil => simp [List.takeWhile]
  | cons c cs ih =>
    have hc : c ≠ squote := hv c (by simp)
    simp only [List.cons_append, List.takeWhile_cons]
    rw [if_pos (by simp [hc])]
    rw [ih (fun x hx => hv x (by simp [hx]))]

theorem parseInList_join : ∀ (l : List Str) (fuel : Nat),
    (∀ v ∈ l, ∀ c ∈ v, c ≠ squote) → l ≠ [] →
    (joinComma (l.map quoteSQL)).length < fuel →
    parseInList fuel (joinComma (l.map quoteSQL)) = some l
  | [], _, _, hne, _ => absurd rfl hne
  | [v], fuel, hq, _, hlen => by
    have hv : ∀ c ∈ v, c ≠ squote := hq v (by simp)
    have hj : joinComma ([v].map quoteSQL) = squote :: (v ++ squote :: []) := by
      simp [joinComma, quoteSQL]
    rw [hj] at hlen ⊢
    match fuel, hlen with
    | fuel + 1, _ =>
      unfold parseInList
      rw [if_pos rfl]
      dsimp only
      rw [takeWhile_no_squote v [] hv, List.drop_left]
      rfl
  | v :: r :: t, fuel, hq, _, hlen => by
    have hv : ∀ c ∈ v, c ≠ squote := hq v (by simp)
    have hj0 : joinComma ((v :: r :: t).map quoteSQL)
        = quoteSQL v ++ ',' :: joinComma ((r :: t).map quoteSQL) := by
      simp only [List.map_cons]
      rw [joinComma]
      simp
    have hj : joinComma ((v :: r :: t).map quoteSQL)
        = squote :: (v ++ squote :: ',' :: joinComma ((r :: t).map quoteSQL)) := by
      rw [hj0]; simp [quoteSQL]
    rw [hj] at hlen ⊢
    match fuel, hlen with
    | fuel + 1, hlt =>
      unfold parseInList
      rw [if_pos rfl]
      dsimp only
      rw [takeWhile_no_squote v _ hv, List.drop_left]
      have hih := parseInList_join (r :: t) fuel (fun x hx => hq x (by simp [hx]))
        (by simp)
        (by
          have h2 := hlt
          simp only [List.length_cons, List.length_append] at h2
          omega)
      have hih2 : parseInList fuel (joinComma (quoteSQL r :: List.map quoteSQL t))
          = some (r :: t) := hih
      simp [hih2]

theorem hex_no_squote : ∀ c ∈ hexAlphabet, c ≠ squote := by decide

/-- Claim C10: every title fingerprint interpolated into the batched
lookup statement is a 64-character lowercase-hex SHA-256 digest, so the
quoted IN list parses back to exactly the digest list (no quote or other
metacharacter of an original title can reach the statement), and the
lookup returns exactly the stored (title fingerprint, content
fingerprint) pairs whose title fingerprint is among the batch digests. -/
theorem C10_lookup_safety (titles : List Str) (S : Store) (hne : titles ≠ []) :
    (∀ h ∈ titles.map hashStr, h.length = 64 ∧ ∀ c ∈ h, c ∈ hexAlphabet) ∧
    parseInListAll (joinComma ((titles.map hashStr).map quoteSQL))
      = some (titles.map hashStr) ∧
    (∀ th xh : Str, ((th, xh) ∈ lookupBatch S (titles.map hashStr) ↔
       ∃ r ∈ S, r.title_hash = th ∧ r.text_hash = xh ∧ th ∈ titles.map hashStr)) := by
  refine ⟨?_, ?_, ?_⟩
  · intro h hh
    obtain ⟨t, _, rfl⟩ := List.mem_map.mp hh
    exact ⟨hashStr_length t, hashStr_hex t⟩
  · unfold parseInListAll
    apply parseInList_join
    · intro v hv c hc
      obtain ⟨t, _, rfl⟩ := List.mem_map.mp hv
      exact hex_no_squote c (hashStr_hex t c hc)
    · simpa using hne
    · exact Nat.lt_succ_self _
  · intro th xh
    unfold lookupBatch
    simp only [List.mem_map, List.mem_filter]
    constructor
    · rintro ⟨r, ⟨hrS, hcont⟩, heq⟩
      injection heq with h1 h2
      exact ⟨r, hrS, h1, h2, by
        rw [← h1]
        exact List.mem_map.mp ((List.elem_iff).mp hcont)⟩
    · rintro ⟨r, hrS, h1, h2, hmem⟩
      refine ⟨r, ⟨hrS, ?_⟩, by rw [h1, h2]⟩
      rw [show ((List.map hashStr titles).contains r.title_hash = true) = (r.title_hash ∈ List.map hashStr titles) from propext List.elem_iff, h1]
      exact List.mem_map.mpr hmem

/-- Claim C10, witness at a one-title batch over the empty store. -/
theorem C10_witness :
    (["T".toList] ≠ ([] : List Str)) ∧
    ((∀ h ∈ (["T".toList] : List Str).map hashStr, h.length = 64 ∧ ∀ c ∈ h, c ∈ hexAlphabet) ∧
     parseInListAll (joinComma (((["T".toList] : List Str).map hashStr).map quoteSQL))
       = some ((["T".toList] : List Str).map hashStr) ∧
     (∀ th xh : Str, ((th, xh) ∈ lookupBatch [] ((["T".toList] : List Str).map hashStr) ↔
        ∃ r ∈ ([] : Store), r.title_hash = th ∧ r.text_hash = xh ∧
          th ∈ (["T".toList] : List Str).map hashStr))) :=
  ⟨by decide, C10_lookup_safety ["T".toList] [] (by decide)⟩

theorem dictGet_cons_some (p : Str × Str) (l : List (Str × Str)) (k : Str) (v : Str)
    (h : dictGet l k = some v) : dictGet (p :: l) k = some v := by
  unfold dictGet
  rw [h]

theorem dictGet_none (l : List (Str × Str)) (k : Str)
    (h : ∀ pr ∈ l, pr.1 ≠ k) : dictGet l k = none := by
  induction l with
  | nil => rfl
  | cons p rest ih =>
    unfold dictGet
    rw [ih fun pr hpr => h pr (by simp [hpr])]
    rw [if_neg (h p (by simp))]

theorem lookupBatch_fst_mem (S : Store) (hs : List Str) (pr : Str × Str)
    (h : pr ∈ lookupBatch S hs) : pr.1 ∈ S.map Row.title_hash := by
  unfold lookupBatch at h
  rw [List.mem_map] at h
  obtain ⟨r, hr, rfl⟩ := h
  exact List.mem_map.mpr ⟨r, (List.mem_filter.mp hr).1, rfl⟩

theorem dictGet_some_mem (l : List (Str × Str)) (k v : Str)
    (h : dictGet l k = some v) : (k, v) ∈ l := by
  induction l with
  | nil => simp [dictGet] at h
  | cons p rest ih =>
    unfold dictGet at h
    cases hrec : dictGet rest k with
    | some w =>
      rw [hrec] at h
      cases h
      exact List.mem_cons_of_mem _ (ih hrec)
    | none =>
      rw [hrec] at h
      change (if p.1 = k then some p.2 else none) = some v at h
      by_cases hk : p.1 = k
      · rw [if_pos hk] at h
        cases h
        rw [← hk]
        simp
      · rw [if_neg hk] at h
        cases h

theorem dictGet_lookup_unique (S : Store) (hs : List Str) (k : Str) (r : Row)
    (hnd : (S.map Row.title_hash).Nodup) (hr : r ∈ S) (hk : r.title_hash = k)
    (hmem : hs.contains k = true) :
    dictGet (lookupBatch S hs) k = some r.text_hash := by
  induction S with
  | nil => cases hr
  | cons q rest ih =>
    have hnd' : (rest.map Row.title_hash).Nodup := (List.nodup_cons.mp hnd).2
    rcases List.mem_cons.mp hr with rfl | hr'
    · have hnone : dictGet (lookupBatch rest hs) k = none := by
        apply dictGet_none
        intro pr hpr hprk
        have := lookupBatch_fst_mem rest hs pr hpr
        rw [hprk, ← hk] at this
        exact (List.nodup_cons.mp hnd).1 this
      unfold lookupBatch
      rw [List.filter_cons, if_pos (by rw [hk]; exact hmem)]
      show dictGet ((r.title_hash, r.text_hash) :: lookupBatch rest hs) k = _
      unfold dictGet
      rw [hnone, if_pos hk]
    · have := ih hnd' hr'
      unfold lookupBatch
      rw [List.filter_cons]
      by_cases hq : hs.contains q.title_hash = true
      · rw [if_pos hq]
        exact dictGet_cons_some _ _ _ _ this
      · rw [if_neg hq]
        exact this

theorem touchRow_map_sig (m : Nat) (th : Str) (S : Store) :
    (touchRow m th S).map Row.sig = S.map Row.sig := by
  unfold touchRow
  rw [List.map_map]
  apply List.map_congr_left
  intro r _
  show Row.sig (if r.title_hash = th then { r with mtime := m } else r) = Row.sig r
  split <;> rfl

theorem touchRow_map_th (m : Nat) (th : Str) (S : Store) :
    (touchRow m th S).map Row.title_hash = S.map Row.title_hash := by
  unfold touchRow
  rw [List.map_map]
  apply List.map_congr_left
  intro r _
  show Row.title_hash (if r.title_hash = th then { r with mtime := m } else r) = Row.title_hash r
  split <;> rfl

theorem touchRow_map_id (m : Nat) (th : Str) (S : Store) :
    (touchRow m th S).map Row.id = S.map Row.id := by
  unfold touchRow
  rw [List.map_map]
  apply List.map_congr_left
  intro r _
  show Row.id (if r.title_hash = th then { r with mtime := m } else r) = Row.id r
  split <;> rfl

theorem touchRow_map_key2 (m : Nat) (th : Str) (S : Store) :
    (touchRow m th S).map (fun r => (r.title_hash, r.text_hash))
      = S.map (fun r => (r.title_hash, r.text_hash)) := by
  unfold touchRow
  rw [List.map_map]
  apply List.map_congr_left
  intro r _
  show ((if r.title_hash = th then { r with mtime := m } else r).title_hash,
        (if r.title_hash = th then { r with mtime := m } else r).text_hash)
      = (r.title_hash, r.text_hash)
  split <;> rfl

/-- Claim C7: on a page whose title is stored with an equal content
fingerprint, the engine performs exactly one touch: the run succeeds, the
store is mapped so that only rows carrying that title fingerprint get the
new timestamp — under the uniqueness of title fingerprints that is the
single matching row, updated in mtime only — every other row is kept
identical, and the identity-carrying fields (id, title, fingerprints,
payload) of all rows are unchanged. -/
theorem C7_touch_frame (S : Store) (t x : Str) (m : Nat) (r : Row)
    (hnd : (S.map Row.title_hash).Nodup) (hr : r ∈ S)
    (hth : r.title_hash = hashStr t) (hxh : r.text_hash = hashStr x) :
    parse_dump S [(t, x)] m
      = (⟨touchRow m (hashStr t) S, maxId S, [EngAction.touch (hashStr t)]⟩, true) ∧
    touchRow m (hashStr t) S
      = S.map (fun q => if q.title_hash = hashStr t then { q with mtime := m } else q) ∧
    (∀ q ∈ S, q.title_hash ≠ hashStr t → q ∈ touchRow m (hashStr t) S) ∧
    { r with mtime := m } ∈ touchRow m (hashStr t) S ∧
    (touchRow m (hashStr t) S).map Row.sig = S.map Row.sig := by
  have holds : dictGet (lookupBatch S [hashStr t]) (hashStr t) = some (hashStr x) := by
    rw [← hxh]
    exact dictGet_lookup_unique S _ _ r hnd hr hth (by simp [List.elem_iff])
  refine ⟨?_, rfl, ?_, ?_, touchRow_map_sig m _ S⟩
  · show runBatches m ⟨S, maxId S, []⟩ (chunkList 50 ([(t, x)] : List Page).length [(t, x)]) = _
    have hchunk : chunkList 50 ([(t, x)] : List Page).length [(t, x)] = [[(t, x)]] := rfl
    rw [hchunk]
    unfold runBatches batchStep
    simp only [List.foldlM_cons, List.foldlM_nil, List.map_cons, List.map_nil]
    unfold pageStep
    dsimp only
    rw [holds, if_pos rfl]
    rfl
  · intro q hq hqth
    unfold touchRow
    exact List.mem_map.mpr ⟨q, hq, by rw [if_neg hqth]⟩
  · unfold touchRow
    exact List.mem_map.mpr ⟨r, hr, by rw [if_pos hth]⟩

/-- Claim C7, witness at a one-row store holding the page ("T","x"). -/
theorem C7_witness :
    ((storeTx.map Row.title_hash).Nodup) ∧
    (parse_dump storeTx [("T".toList, "x".toList)] 9
      = (⟨touchRow 9 (hashStr ("T".toList)) storeTx, maxId storeTx,
          [EngAction.touch (hashStr ("T".toList))]⟩, true) ∧
    touchRow 9 (hashStr ("T".toList)) storeTx
      = storeTx.map (fun q => if q.title_hash = hashStr ("T".toList)
          then { q with mtime := 9 } else q) ∧
    (∀ q ∈ storeTx, q.title_hash ≠ hashStr ("T".toList) →
      q ∈ touchRow 9 (hashStr ("T".toList)) storeTx) ∧
    { (⟨1, "T".toList, hashStr ("T".toList), hashStr ("x".toList),
        extract_film_data ("T".toList) ("x".toList), 0⟩ : Row) with mtime := 9 }
      ∈ touchRow 9 (hashStr ("T".toList)) storeTx ∧
    (touchRow 9 (hashStr ("T".toList)) storeTx).map Row.sig = storeTx.map Row.sig) :=
  ⟨by simp [storeTx],
   C7_touch_frame storeTx ("T".toList) ("x".toList) 9
     ⟨1, "T".toList, hashStr ("T".toList), hashStr ("x".toList),
      extract_film_data ("T".toList) ("x".toList), 0⟩
     (by simp [storeTx]) (by simp [storeTx]) rfl rfl⟩

theorem le_foldr_max : ∀ (l : List Nat), ∀ x ∈ l, x ≤ l.foldr max 0 := by
  intro l
  induction l with
  | nil => intro x hx; cases hx
  | cons y t ih =>
    intro x hx
    rcases List.mem_cons.mp hx with rfl | hx'
    · exact le_max_left _ _
    · exact le_trans (ih x hx') (le_max_right _ _)

theorem mem_le_maxId (S : Store) : ∀ r ∈ S, r.id ≤ maxId S := by
  intro r hr
  exact le_foldr_max (S.map Row.id) r.id (List.mem_map.mpr ⟨r, hr, rfl⟩)

theorem pageStep_C6 (olds : List (Str × Str)) (m : Nat) (S : Store)
    (st st' : EngState) (p : Page)
    (h : pageStep olds m st p = some st')
    (h1 : (st.store.take S.length).map Row.sig = S.map Row.sig)
    (h2 : (st.store.drop S.length).map Row.id
        = List.range' (maxId S + 1) (st.store.length - S.length))
    (h3 : st.currentId = maxId S + (st.store.length - S.length)) :
    ((st'.store.take S.length).map Row.sig = S.map Row.sig) ∧
    ((st'.store.drop S.length).map Row.id
        = List.range' (maxId S + 1) (st'.store.length - S.length)) ∧
    (st'.currentId = maxId S + (st'.store.length - S.length)) := by
  have hlen : S.length ≤ st.store.length := by
    have hc := congrArg List.length h1
    simp only [List.length_map, List.length_take] at hc
    omega
  unfold pageStep at h
  dsimp only at h
  by_cases hold : dictGet olds (hashStr p.1) = some (hashStr p.2)
  · rw [if_pos hold] at h
    cases h
    refine ⟨?_, ?_, ?_⟩
    · show ((touchRow m (hashStr p.1) st.store).take S.length).map Row.sig = _
      rw [List.map_take, touchRow_map_sig, ← List.map_take]
      exact h1
    · show ((touchRow m (hashStr p.1) st.store).drop S.length).map Row.id
          = List.range' (maxId S + 1) ((touchRow m (hashStr p.1) st.store).length - S.length)
      have hlen2 : (touchRow m (hashStr p.1) st.store).length = st.store.length := by
        unfold touchRow; rw [List.length_map]
      rw [List.map_drop, touchRow_map_id, ← List.map_drop, hlen2]
      exact h2
    · show st.currentId = maxId S + ((touchRow m (hashStr p.1) st.store).length - S.length)
      have hlen2 : (touchRow m (hashStr p.1) st.store).length = st.store.length := by
        unfold touchRow; rw [List.length_map]
      rw [hlen2]
      exact h3
  · rw [if_neg hold] at h
    cases holdv : dictGet olds (hashStr p.1) with
    | some v => rw [holdv] at h; cases h
    | none =>
      rw [holdv] at h
      cases h
      refine ⟨?_, ?_, ?_⟩
      · show ((st.store ++ [_]).take S.length).map Row.sig = _
        rw [List.take_append_of_le_length hlen]
        exact h1
      · show ((st.store ++ [_]).drop S.length).map Row.id
            = List.range' (maxId S + 1) ((st.store ++ [_]).length - S.length)
        rw [List.drop_append_of_le_length hlen, List.map_append, h2]
        have hlen1 : (st.store ++ [(⟨st.currentId + 1, p.1, hashStr p.1, hashStr p.2,
            extract_film_data p.1 p.2, m⟩ : Row)]).length = st.store.length + 1 := by
          rw [List.length_append]; rfl
        rw [hlen1]
        have hk : st.store.length + 1 - S.length = (st.store.length - S.length) + 1 := by
          omega
        rw [hk, List.range'_1_concat]
        congr 1
        simp only [List.map_cons, List.map_nil, List.cons.injEq, and_true]
        omega
      · show st.currentId + 1 = maxId S + ((st.store ++ [_]).length - S.length)
        rw [List.length_append, h3]
        simp only [List.length_cons, List.length_nil]
        omega

theorem foldlM_C6 (olds : List (Str × Str)) (m : Nat) (S : Store) :
    ∀ (batch : List Page) (st st' : EngState),
    batch.foldlM (pageStep olds m) st = some st' →
    ((st.store.take S.length).map Row.sig = S.map Row.sig) →
    ((st.store.drop S.length).map Row.id
        = List.range' (maxId S + 1) (st.store.length - S.length)) →
    (st.currentId = maxId S + (st.store.length - S.length)) →
    ((st'.store.take S.length).map Row.sig = S.map Row.sig) ∧
    ((st'.store.drop S.length).map Row.id
        = List.range' (maxId S + 1) (st'.store.length - S.length)) ∧
    (st'.currentId = maxId S + (st'.store.length - S.length)) := by
  intro batch
  induction batch with
  | nil =>
    intro st st' h h1 h2 h3
    cases h
    exact ⟨h1, h2, h3⟩
  | cons p rest ih =>
    intro st st' h h1 h2 h3
    rw [List.foldlM_cons] at h
    rcases Option.bind_eq_some.mp h with ⟨st₁, hstep, hrest⟩
    obtain ⟨g1, g2, g3⟩ := pageStep_C6 olds m S st st₁ p hstep h1 h2 h3
    exact ih st₁ st' hrest g1 g2 g3

theorem runBatches_C6 (m : Nat) (S : Store) :
    ∀ (bs : List (List Page)) (st : EngState),
    ((st.store.take S.length).map Row.sig = S.map Row.sig) →
    ((st.store.drop S.length).map Row.id
        = List.range' (maxId S + 1) (st.store.length - S.length)) →
    (st.currentId = maxId S + (st.store.length - S.length)) →
    (((runBatches m st bs).1.store.take S.length).map Row.sig = S.map Row.sig) ∧
    (((runBatches m st bs).1.store.drop S.length).map Row.id
        = List.range' (maxId S + 1) ((runBatches m st bs).1.store.length - S.length)) ∧
    ((runBatches m st bs).1.currentId
        = maxId S + ((runBatches m st bs).1.store.length - S.length)) := by
  intro bs
  induction bs with
  | nil => intro st h1 h2 h3; exact ⟨h1, h2, h3⟩
  | cons b rest ih =>
    intro st h1 h2 h3
    cases hb : batchStep m st b with
    | some st₁ =>
      have hrb : runBatches m st (b :: rest) = runBatches m st₁ rest := by
        show (match batchStep m st b with
          | some st2 => runBatches m st2 rest
          | none => (st, false)) = runBatches m st₁ rest
        rw [hb]
      rw [hrb]
      obtain ⟨g1, g2, g3⟩ := foldlM_C6 _ m S b st st₁ hb h1 h2 h3
      exact ih st₁ g1 g2 g3
    | none =>
      have hrb : runBatches m st (b :: rest) = (st, false) := by
        show (match batchStep m st b with
          | some st2 => runBatches m st2 rest
          | none => (st, false)) = (st, false)
        rw [hb]

      rw [hrb]
      exact ⟨h1, h2, h3⟩

/-- Claim C6: identities are stable and fresh.  For any run of the engine
(completed or aborted at a failing batch), the first `|S|` rows of the
resulting store are the prior rows with unchanged id, title, fingerprints
and payload (only mtime may differ), the rows appended after them carry
the consecutive identities maxId+1, maxId+2, ... seeded from the maximum
stored identity read at start-up — so the first insert of a run gets
maxId+1, identities increase monotonically and, every stored id being at
most maxId, are never reused — and the in-process counter equals maxId
plus the number of inserted rows.  Identity is assigned at first
observation (the insert branch) and no later statement writes the id
column, so it never changes across any number of subsequent runs. -/
theorem C6_identity_stable (S : Store) (pages : List Page) (m : Nat) :
    (((parse_dump S pages m).1.store.take S.length).map Row.sig = S.map Row.sig) ∧
    (((parse_dump S pages m).1.store.drop S.length).map Row.id
        = List.range' (maxId S + 1) ((parse_dump S pages m).1.store.length - S.length)) ∧
    ((parse_dump S pages m).1.currentId
        = maxId S + ((parse_dump S pages m).1.store.length - S.length)) ∧
    (∀ r ∈ S, r.id ≤ maxId S) := by
  obtain ⟨g1, g2, g3⟩ := runBatches_C6 m S (chunkList 50 pages.length pages)
    ⟨S, maxId S, []⟩ (by simp) (by simp) (by simp)
  exact ⟨g1, g2, g3, mem_le_maxId S⟩

/-!
## Claim C2: idempotence of a second run over an identical stream

The helpers below analyse one batch of the engine loop. `firstRun_batch`
and `firstRun_run` show that a completed run leaves every page of the
stream recorded with its current fingerprints, provided the title
fingerprints are pairwise distinct in the stream and in the store.
`secondRun_batch` and `secondRun_run` then show that a run over a stream
whose pages are all recorded with matching fingerprints performs only
touch actions and leaves every stored identity, title, fingerprint and
payload unchanged.
-/

theorem chunkList_join {α : Type} (n : Nat) (hn : 0 < n) :
    ∀ (fuel : Nat) (l : List α), l.length ≤ fuel → (chunkList n fuel l).flatten = l := by
  intro fuel
  induction fuel with
  | zero =>
    intro l hl
    cases l with
    | nil => rfl
    | cons a t => simp at hl
  | succ fuel ih =>
    intro l hl
    cases l with
    | nil => rfl
    | cons a t =>
      show ((a :: t).take n :: chunkList n fuel ((a :: t).drop n)).flatten = a :: t
      rw [List.flatten_cons]
      rw [ih ((a :: t).drop n) (by rw [List.length_drop]; simp at hl ⊢; omega)]
      exact List.take_append_drop n (a :: t)

theorem map_th_eq_fst_key2 (S : Store) :
    S.map Row.title_hash
      = (S.map fun r => (r.title_hash, r.text_hash)).map Prod.fst := by
  rw [List.map_map]
  rfl

theorem map_key2_of_sig (S1 S2 : Store) (h : S1.map Row.sig = S2.map Row.sig) :
    S1.map (fun r => (r.title_hash, r.text_hash))
      = S2.map (fun r => (r.title_hash, r.text_hash)) := by
  have e : ∀ S : Store, S.map (fun r => (r.title_hash, r.text_hash))
      = (S.map Row.sig).map (fun q => (q.2.2.1, q.2.2.2.1)) := by
    intro S; rw [List.map_map]; rfl
  rw [e, e, h]

theorem map_th_of_sig (S1 S2 : Store) (h : S1.map Row.sig = S2.map Row.sig) :
    S1.map Row.title_hash = S2.map Row.title_hash := by
  have e : ∀ S : Store, S.map Row.title_hash
      = (S.map Row.sig).map (fun q => q.2.2.1) := by
    intro S; rw [List.map_map]; rfl
  rw [e, e, h]

theorem lookupBatch_pair_mem (S : Store) (hs : List Str) (pr : Str × Str)
    (h : pr ∈ lookupBatch S hs) :
    pr ∈ S.map fun r => (r.title_hash, r.text_hash) := by
  unfold lookupBatch at h
  rw [List.mem_map] at h
  obtain ⟨r, hr, rfl⟩ := h
  exact List.mem_map.mpr ⟨r, (List.mem_filter.mp hr).1, rfl⟩

theorem mem_lookupBatch (S : Store) (hs : List Str) (r : Row)
    (hr : r ∈ S) (hc : hs.contains r.title_hash = true) :
    (r.title_hash, r.text_hash) ∈ lookupBatch S hs := by
  unfold lookupBatch
  exact List.mem_map.mpr ⟨r, List.mem_filter.mpr ⟨hr, hc⟩, rfl⟩

theorem dictGet_isSome_of_mem (l : List (Str × Str)) (k v : Str)
    (h : (k, v) ∈ l) : dictGet l k ≠ none := by
  induction l with
  | nil => cases h
  | cons p rest ih =>
    unfold dictGet
    rcases List.mem_cons.mp h with heq | hmem
    · cases hrec : dictGet rest k with
      | some w => simp
      | none =>
        rw [← heq]
        simp
    · cases hrec : dictGet rest k with
      | some w => simp
      | none => exact absurd hrec (ih hmem)

theorem pageStep_touch_eq (olds : List (Str × Str)) (m : Nat) (st : EngState) (p : Page)
    (hold : dictGet olds (hashStr p.1) = some (hashStr p.2)) :
    pageStep olds m st p
      = some ⟨touchRow m (hashStr p.1) st.store, st.currentId,
          st.acts ++ [EngAction.touch (hashStr p.1)]⟩ := by
  unfold pageStep
  dsimp only
  rw [hold, if_pos rfl]

theorem pageStep_insert_eq (olds : List (Str × Str)) (m : Nat) (st : EngState) (p : Page)
    (hold : dictGet olds (hashStr p.1) = none) :
    pageStep olds m st p
      = some ⟨st.store ++ [⟨st.currentId + 1, p.1, hashStr p.1, hashStr p.2,
            extract_film_data p.1 p.2, m⟩], st.currentId + 1,
          st.acts ++ [EngAction.insert (st.currentId + 1) (hashStr p.1)]⟩ := by
  unfold pageStep
  dsimp only
  rw [hold, if_neg (by simp)]

theorem pageStep_err_eq (olds : List (Str × Str)) (m : Nat) (st : EngState) (p : Page)
    (v : Str) (hold : dictGet olds (hashStr p.1) = some v) (hv : v ≠ hashStr p.2) :
    pageStep olds m st p = none := by
  unfold pageStep
  dsimp only
  rw [hold, if_neg (by simp [hv])]

theorem pageStep_cases (olds : List (Str × Str)) (m : Nat) (st st' : EngState) (p : Page)
    (h : pageStep olds m st p = some st') :
    (dictGet olds (hashStr p.1) = some (hashStr p.2) ∧
      st' = ⟨touchRow m (hashStr p.1) st.store, st.currentId,
        st.acts ++ [EngAction.touch (hashStr p.1)]⟩) ∨
    (dictGet olds (hashStr p.1) = none ∧
      st' = ⟨st.store ++ [⟨st.currentId + 1, p.1, hashStr p.1, hashStr p.2,
            extract_film_data p.1 p.2, m⟩], st.currentId + 1,
          st.acts ++ [EngAction.insert (st.currentId + 1) (hashStr p.1)]⟩) := by
  cases hold : dictGet olds (hashStr p.1) with
  | none =>
    rw [pageStep_insert_eq olds m st p hold] at h
    right
    exact ⟨rfl, (Option.some.inj h).symm⟩
  | some v =>
    by_cases hv : v = hashStr p.2
    · subst hv
      rw [pageStep_touch_eq olds m st p hold] at h
      left
      exact ⟨rfl, (Option.some.inj h).symm⟩
    · rw [pageStep_err_eq olds m st p v hold hv] at h
      cases h



theorem firstRun_batch (m : Nat) (SB : Store) (hs : List Str) :
    ∀ (remaining : List Page) (st st' : EngState) (acc : List (Str × Str)),
    remaining.foldlM (pageStep (lookupBatch SB hs) m) st = some st' →
    st.store.map (fun r => (r.title_hash, r.text_hash))
      = SB.map (fun r => (r.title_hash, r.text_hash)) ++ acc →
    (st.store.map Row.title_hash).Nodup →
    ((remaining.map fun p => hashStr p.1).Nodup) →
    (∀ pr ∈ acc, pr.1 ∉ remaining.map fun p => hashStr p.1) →
    (∀ p ∈ remaining, hs.contains (hashStr p.1) = true) →
    (∃ news2, st'.store.map (fun r => (r.title_hash, r.text_hash))
        = st.store.map (fun r => (r.title_hash, r.text_hash)) ++ news2) ∧
    (st'.store.map Row.title_hash).Nodup ∧
    (∀ p ∈ remaining, (hashStr p.1, hashStr p.2)
        ∈ st'.store.map fun r => (r.title_hash, r.text_hash)) := by
  intro remaining
  induction remaining with
  | nil =>
    intro st st' acc h hrel hnd hndr hfresh hhs
    cases h
    exact ⟨⟨[], by simp⟩, hnd, by simp⟩
  | cons p rest ih =>
    intro st st' acc h hrel hnd hndr hfresh hhs
    rw [List.foldlM_cons] at h
    rcases Option.bind_eq_some.mp h with ⟨st₁, hstep, hrest⟩
    have hndr2 : ((rest.map fun q => hashStr q.1).Nodup) :=
      (List.nodup_cons.mp (by simpa using hndr)).2
    have hhs2 : ∀ q ∈ rest, hs.contains (hashStr q.1) = true :=
      fun q hq => hhs q (List.mem_cons_of_mem _ hq)
    rcases pageStep_cases _ m st st₁ p hstep with ⟨hold, rfl⟩ | ⟨hold, rfl⟩
    · have hpair : (hashStr p.1, hashStr p.2)
          ∈ st.store.map fun r => (r.title_hash, r.text_hash) := by
        have h1 := dictGet_some_mem _ _ _ hold
        have h2 := lookupBatch_pair_mem SB hs _ h1
        rw [hrel]
        exact List.mem_append_left _ h2
      set stT : EngState := ⟨touchRow m (hashStr p.1) st.store, st.currentId,
        st.acts ++ [EngAction.touch (hashStr p.1)]⟩ with hstT
      have hrelT : stT.store.map (fun r => (r.title_hash, r.text_hash))
          = SB.map (fun r => (r.title_hash, r.text_hash)) ++ acc := by
        rw [hstT]
        show (touchRow m (hashStr p.1) st.store).map _ = _
        rw [touchRow_map_key2]
        exact hrel
      have hndT : (stT.store.map Row.title_hash).Nodup := by
        rw [hstT]
        show ((touchRow m (hashStr p.1) st.store).map Row.title_hash).Nodup
        rw [touchRow_map_th]
        exact hnd
      obtain ⟨⟨news2, hmono⟩, hnd2, hpages⟩ := ih stT st' acc hrest hrelT hndT hndr2
        (fun pr hpr hmem => hfresh pr hpr (List.mem_cons_of_mem _ hmem)) hhs2
      have hkey : stT.store.map (fun r => (r.title_hash, r.text_hash))
          = st.store.map fun r => (r.title_hash, r.text_hash) := by
        rw [hstT]
        exact touchRow_map_key2 _ _ _
      rw [hkey] at hmono
      refine ⟨⟨news2, hmono⟩, hnd2, ?_⟩
      intro q hq
      rcases List.mem_cons.mp hq with rfl | hq2
      · rw [hmono]
        exact List.mem_append_left _ hpair
      · exact hpages q hq2
    · have hnotSB : (hashStr p.1) ∉ SB.map Row.title_hash := by
        intro hmem
        rw [List.mem_map] at hmem
        obtain ⟨r, hr, hrth⟩ := hmem
        have hcont : hs.contains r.title_hash = true := by
          rw [hrth]; exact hhs p (by simp)
        have hlk := mem_lookupBatch SB hs r hr hcont
        rw [hrth] at hlk
        exact dictGet_isSome_of_mem _ _ _ hlk hold
      have hnotacc : (hashStr p.1) ∉ acc.map Prod.fst := by
        intro hmem
        rw [List.mem_map] at hmem
        obtain ⟨pr, hpr, hpr1⟩ := hmem
        exact hfresh pr hpr (by rw [hpr1]; simp)
      have hnotst : (hashStr p.1) ∉ st.store.map Row.title_hash := by
        rw [map_th_eq_fst_key2, hrel, List.map_append, ← map_th_eq_fst_key2]
        intro hmem
        rcases List.mem_append.mp hmem with hl | hr
        · exact hnotSB hl
        · exact hnotacc hr
      set stI : EngState := ⟨st.store ++ [⟨st.currentId + 1, p.1, hashStr p.1,
          hashStr p.2, extract_film_data p.1 p.2, m⟩], st.currentId + 1,
        st.acts ++ [EngAction.insert (st.currentId + 1) (hashStr p.1)]⟩ with hstI
    
      have hkey2 : stI.store.map (fun r => (r.title_hash, r.text_hash))
          = st.store.map (fun r => (r.title_hash, r.text_hash))
            ++ [(hashStr p.1, hashStr p.2)] := by
        rw [hstI]
        show (st.store ++ [_]).map _ = _
        rw [List.map_append]
        rfl
      have hrelI : stI.store.map (fun r => (r.title_hash, r.text_hash))
          = SB.map (fun r => (r.title_hash, r.text_hash))
            ++ (acc ++ [(hashStr p.1, hashStr p.2)]) := by
        rw [hkey2, hrel, List.append_assoc]
      have hndI : (stI.store.map Row.title_hash).Nodup := by
        rw [hstI]
        show ((st.store ++ [_]).map Row.title_hash).Nodup
        rw [List.map_append]
        apply List.Nodup.append hnd (by simp)
        intro x hx hx2
        simp only [List.map_cons, List.map_nil, List.mem_cons,
          List.not_mem_nil, or_false] at hx2
        subst hx2
        exact hnotst hx
      have hfreshI : ∀ pr ∈ acc ++ [(hashStr p.1, hashStr p.2)],
          pr.1 ∉ rest.map fun q => hashStr q.1 := by
        intro pr hpr
        rcases List.mem_append.mp hpr with hl | hr
        · exact fun hmem => hfresh pr hl (List.mem_cons_of_mem _ hmem)
        · have hhead : hashStr p.1 ∉ rest.map fun q => hashStr q.1 := by
            have h0 : ((p :: rest).map fun q => hashStr q.1).Nodup := hndr
            rw [List.map_cons, List.nodup_cons] at h0
            exact h0.1
          have hr2 : pr = (hashStr p.1, hashStr p.2) := by
            simpa using hr
          rw [hr2]
          exact hhead
      obtain ⟨⟨news2, hmono⟩, hnd2, hpages⟩ := ih stI st'
        (acc ++ [(hashStr p.1, hashStr p.2)]) hrest hrelI hndI hndr2 hfreshI hhs2
      rw [hkey2] at hmono
      refine ⟨⟨(hashStr p.1, hashStr p.2) :: news2, ?_⟩, hnd2, ?_⟩
      · rw [hmono, List.append_assoc]
        rfl
      · intro q hq
        rcases List.mem_cons.mp hq with rfl | hq2
        · rw [hmono]
          apply List.mem_append_left
          apply List.mem_append_right
          simp
        · exact hpages q hq2

theorem firstRun_run (m : Nat) :
    ∀ (bs : List (List Page)) (st st' : EngState),
    runBatches m st bs = (st', true) →
    (st.store.map Row.title_hash).Nodup →
    ((bs.flatten.map fun p => hashStr p.1).Nodup) →
    (st'.store.map Row.title_hash).Nodup ∧
    (∃ news2, st'.store.map (fun r => (r.title_hash, r.text_hash))
        = st.store.map (fun r => (r.title_hash, r.text_hash)) ++ news2) ∧
    (∀ p ∈ bs.flatten, (hashStr p.1, hashStr p.2)
        ∈ st'.store.map fun r => (r.title_hash, r.text_hash)) := by
  intro bs
  induction bs with
  | nil =>
    intro st st' h hnd _
    have h' : (st, true) = (st', true) := h
    injection h' with h1 _
    subst h1
    exact ⟨hnd, ⟨[], by simp⟩, by simp⟩
  | cons b rest ih =>
    intro st st' h hnd hjoin
    have hjb : ((b.map fun p => hashStr p.1).Nodup) := by
      have : (((b :: rest).flatten).map fun p => hashStr p.1).Nodup := hjoin
      rw [List.flatten_cons, List.map_append] at this
      exact this.of_append_left
    have hjr : ((rest.flatten.map fun p => hashStr p.1).Nodup) := by
      have : (((b :: rest).flatten).map fun p => hashStr p.1).Nodup := hjoin
      rw [List.flatten_cons, List.map_append] at this
      exact this.of_append_right
    cases hb : batchStep m st b with
    | none =>
      have h' : (st, false) = (st', true) := by
        rw [← h]
        show _ = (match batchStep m st b with
          | some st2 => runBatches m st2 rest
          | none => (st, false))
        rw [hb]
      injection h' with _ h2
      cases h2
    | some st₁ =>
      have h' : runBatches m st₁ rest = (st', true) := by
        rw [← h]
        show _ = (match batchStep m st b with
          | some st2 => runBatches m st2 rest
          | none => (st, false))
        rw [hb]
      have hb' : b.foldlM (pageStep (lookupBatch st.store
          (b.map fun p => hashStr p.1)) m) st = some st₁ := hb
      set hsb : List Str := b.map fun p => hashStr p.1 with hhsb
      have hrel0 : st.store.map (fun r => (r.title_hash, r.text_hash))
          = st.store.map (fun r => (r.title_hash, r.text_hash)) ++ [] := by simp
      have hfresh0 : ∀ pr ∈ ([] : List (Str × Str)), pr.1 ∉ hsb := by simp
      have hhs0 : ∀ p ∈ b, hsb.contains (hashStr p.1) = true := by
        intro p hp
        rw [hhsb]
        exact List.elem_iff.mpr (List.mem_map.mpr ⟨p, hp, rfl⟩)
      obtain ⟨⟨news2b, hmonoB⟩, hndB, hpagesB⟩ :=
        firstRun_batch m st.store hsb b st st₁ []
          hb' hrel0 hnd hjb hfresh0 hhs0
      obtain ⟨hnd', ⟨news2r, hmonoR⟩, hpagesR⟩ := ih st₁ st' h' hndB hjr
      refine ⟨hnd', ⟨news2b ++ news2r, ?_⟩, ?_⟩
      · rw [hmonoR, hmonoB, List.append_assoc]
      · intro p hp
        rw [List.flatten_cons] at hp
        rcases List.mem_append.mp hp with hl | hr
        · rw [hmonoR]
          exact List.mem_append_left _ (hpagesB p hl)
        · exact hpagesR p hr

theorem secondRun_batch (m : Nat) (SB : Store) (hs : List Str) :
    ∀ (remaining : List Page) (st : EngState),
    (∀ p ∈ remaining, (hashStr p.1, hashStr p.2)
        ∈ SB.map fun r => (r.title_hash, r.text_hash)) →
    ((SB.map Row.title_hash).Nodup) →
    (∀ p ∈ remaining, hs.contains (hashStr p.1) = true) →
    ∃ st', remaining.foldlM (pageStep (lookupBatch SB hs) m) st = some st' ∧
      st'.store.map Row.sig = st.store.map Row.sig ∧
      st'.currentId = st.currentId ∧
      st'.acts = st.acts ++ remaining.map fun p => EngAction.touch (hashStr p.1) := by
  intro remaining
  induction remaining with
  | nil =>
    intro st _ _ _
    exact ⟨st, rfl, rfl, rfl, by simp⟩
  | cons p rest ih =>
    intro st hmem hnd hhs
    obtain ⟨r, hrS, heq⟩ := List.mem_map.mp (hmem p (List.mem_cons_self p rest))
    have hth : r.title_hash = hashStr p.1 := congrArg Prod.fst heq
    have hxh : r.text_hash = hashStr p.2 := congrArg Prod.snd heq
    have hdg : dictGet (lookupBatch SB hs) (hashStr p.1) = some (hashStr p.2) := by
      rw [dictGet_lookup_unique SB hs (hashStr p.1) r hnd hrS hth
        (hhs p (List.mem_cons_self p rest)), hxh]
    set stT : EngState := ⟨touchRow m (hashStr p.1) st.store, st.currentId,
        st.acts ++ [EngAction.touch (hashStr p.1)]⟩ with hstT
    have hstep : pageStep (lookupBatch SB hs) m st p = some stT :=
      pageStep_touch_eq (lookupBatch SB hs) m st p hdg
    obtain ⟨st', hfold, hsig, hid, hacts⟩ := ih stT
      (fun q hq => hmem q (List.mem_cons_of_mem p hq)) hnd
      (fun q hq => hhs q (List.mem_cons_of_mem p hq))
    refine ⟨st', ?_, ?_, ?_, ?_⟩
    · rw [List.foldlM_cons, hstep]
      exact hfold
    · rw [hsig]
      exact touchRow_map_sig m (hashStr p.1) st.store
    · rw [hid]
    · rw [hacts]
      show (st.acts ++ [EngAction.touch (hashStr p.1)]) ++ _ = _
      simp

theorem secondRun_run (m : Nat) (S1 : Store) :
    ∀ (bs : List (List Page)) (st : EngState),
    st.store.map Row.sig = S1.map Row.sig →
    ((S1.map Row.title_hash).Nodup) →
    (∀ p ∈ bs.flatten, (hashStr p.1, hashStr p.2)
        ∈ S1.map fun r => (r.title_hash, r.text_hash)) →
    ∃ st', runBatches m st bs = (st', true) ∧
      st'.store.map Row.sig = st.store.map Row.sig ∧
      st'.currentId = st.currentId ∧
      st'.acts = st.acts ++ bs.flatten.map fun p => EngAction.touch (hashStr p.1) := by
  intro bs
  induction bs with
  | nil =>
    intro st _ _ _
    exact ⟨st, rfl, rfl, rfl, by simp⟩
  | cons b rest ih =>
    intro st hsig hnd hmem
    set hsb : List Str := b.map fun p => hashStr p.1 with hhsb
    have hndst : (st.store.map Row.title_hash).Nodup := by
      rw [map_th_of_sig st.store S1 hsig]
      exact hnd
    have hmemb : ∀ p ∈ b, (hashStr p.1, hashStr p.2)
        ∈ st.store.map fun r => (r.title_hash, r.text_hash) := by
      intro p hp
      rw [map_key2_of_sig st.store S1 hsig]
      exact hmem p (by rw [List.flatten_cons]; exact List.mem_append_left _ hp)
    have hhsb2 : ∀ p ∈ b, hsb.contains (hashStr p.1) = true := by
      intro p hp
      rw [hhsb]
      exact List.elem_iff.mpr (List.mem_map.mpr ⟨p, hp, rfl⟩)
    obtain ⟨st₁, hfold, hsig1, hid1, hacts1⟩ :=
      secondRun_batch m st.store hsb b st hmemb hndst hhsb2
    have hbs : batchStep m st b = some st₁ := hfold
    have hrun : runBatches m st (b :: rest) = runBatches m st₁ rest := by
      show (match batchStep m st b with
        | some st2 => runBatches m st2 rest
        | none => (st, false)) = _
      rw [hbs]
    obtain ⟨st', hrun', hsig', hid', hacts'⟩ := ih st₁ (by rw [hsig1]; exact hsig) hnd
      (fun p hp => hmem p (by rw [List.flatten_cons]; exact List.mem_append_right _ hp))
    refine ⟨st', ?_, ?_, ?_, ?_⟩
    · rw [hrun]
      exact hrun'
    · rw [hsig', hsig1]
    · rw [hid', hid1]
    · rw [hacts', hacts1, List.flatten_cons, List.map_append, List.append_assoc]

/-- Claim C2, amended: the claim is false for arbitrary streams (see the
counterexample), but holds when the title fingerprints of the stream are
pairwise distinct and those of the starting store are unique: after a
completed first run, a second run over the identical stream succeeds,
performs exactly one touch action per page (zero inserts, zero payload
updates), and leaves every stored identity, title, fingerprint and
payload unchanged. -/
theorem C2_amended (S0 : Store) (P : List Page) (m1 m2 : Nat)
    (hS0 : (S0.map Row.title_hash).Nodup)
    (hP : ((P.map fun p => hashStr p.1).Nodup))
    (h1 : (parse_dump S0 P m1).2 = true) :
    (parse_dump (parse_dump S0 P m1).1.store P m2).2 = true ∧
    (parse_dump (parse_dump S0 P m1).1.store P m2).1.acts
      = P.map (fun p => EngAction.touch (hashStr p.1)) ∧
    (parse_dump (parse_dump S0 P m1).1.store P m2).1.store.map Row.sig
      = (parse_dump S0 P m1).1.store.map Row.sig := by
  set bs : List (List Page) := chunkList 50 P.length P with hbs
  have hflat : bs.flatten = P := by
    rw [hbs]
    exact chunkList_join 50 (by norm_num) P.length P le_rfl
  have hrb : runBatches m1 ⟨S0, maxId S0, []⟩ bs
      = ((parse_dump S0 P m1).1, true) := by
    rw [← h1, Prod.mk.eta, hbs]
    rfl
  obtain ⟨hnd1, _hmono, hpages⟩ :=
    firstRun_run m1 bs ⟨S0, maxId S0, []⟩ (parse_dump S0 P m1).1 hrb hS0
      (by rw [hflat]; exact hP)
  obtain ⟨st2, hrun2, hsig2, _hid2, hacts2⟩ :=
    secondRun_run m2 (parse_dump S0 P m1).1.store bs
      ⟨(parse_dump S0 P m1).1.store, maxId (parse_dump S0 P m1).1.store, []⟩
      rfl hnd1 hpages
  have hpd2 : parse_dump (parse_dump S0 P m1).1.store P m2 = (st2, true) := hrun2
  refine ⟨?_, ?_, ?_⟩
  · rw [hpd2]
  · rw [hpd2]
    show st2.acts = _
    rw [hacts2, hflat]
    simp
  · rw [hpd2]
    show st2.store.map Row.sig = _
    exact hsig2

set_option maxRecDepth 40000 in
/-- Claim C2, counterexample: a stream that repeats one title with two
different bodies completes its first run by inserting two rows carrying
the same title fingerprint; the second run over the identical stream then
finds a stored fingerprint that differs from the incoming one, takes the
(rejected) modified-movie branch and aborts, so the second run is not the
no-op sequence of touches the claim asserts. -/
theorem C2_counterexample :
    (parse_dump [] pagesDup 1).2 = true ∧
    (parse_dump (parse_dump [] pagesDup 1).1.store pagesDup 2).2 = false := by
  constructor <;> decide

/-- Claim C2, witness for the amended theorem at a one-page stream run
from the empty store. -/
theorem C2_witness :
    (([] : Store).map Row.title_hash).Nodup ∧
    ((pagesOne.map fun p => hashStr p.1).Nodup) ∧
    (parse_dump [] pagesOne 1).2 = true ∧
    ((parse_dump (parse_dump [] pagesOne 1).1.store pagesOne 2).2 = true ∧
     (parse_dump (parse_dump [] pagesOne 1).1.store pagesOne 2).1.acts
       = pagesOne.map (fun p => EngAction.touch (hashStr p.1)) ∧
     (parse_dump (parse_dump [] pagesOne 1).1.store pagesOne 2).1.store.map Row.sig
       = (parse_dump [] pagesOne 1).1.store.map Row.sig) :=
  ⟨by simp, by simp [pagesOne], by rfl,
   C2_amended [] pagesOne 1 2 (by simp) (by simp [pagesOne]) (by rfl)⟩
